import Mathlib

/-!
# fast-wfc: grid containers, directions and the sample loader

A shallow embedding of `src/include/utils/array2D.hpp`,
`src/include/utils/array3D.hpp`, `src/include/direction.hpp` and of the loader
functions of `example/src/lib/main.cpp`, followed by the properties established
for them.

Conventions of the embedding.

* `size_t` is a natural number below `SIZE_T_MOD = 2 ^ 64`; every arithmetic
  operation the source performs on `size_t` is reduced modulo `SIZE_T_MOD`.
  `unsigned` is reduced modulo `UNSIGNED_MOD = 2 ^ 32`.
* `std::vector<T>` is `List T`; reading or writing `data[k]` with
  `k ≥ data.size()` has no defined result and is `none`.
* `assert(c)` is compiled in when `NDEBUG` is not defined.  Every function that
  reaches an `assert` takes the flag `ndebug : Bool`; with `ndebug = false` a
  failed assertion ends the computation (`none`), with `ndebug = true` the
  assertion is skipped.
* `for (size_t i = 0; i < n; i++)` is a monadic left fold over `List.range n`.
* In the loader a `throw`, an exception of the C++ library and an operation
  without a defined result end a function with `Except.error`; `std::string` is
  `String`, `std::unordered_map` and `std::unordered_set` are lists of entries.
* The solver, the image reader and the number parser `std::stod` are not part of
  the sources at hand; the functions that call them take them as arguments.
-/

namespace FastWFC

/-- Number of values of `size_t`. -/
def SIZE_T_MOD : Nat := 18446744073709551616

/-- Number of values of `unsigned`. -/
def UNSIGNED_MOD : Nat := 4294967296

/-- Subtraction `a - b` on `size_t`. -/
def size_sub (a b : Nat) : Nat :=
  (a % SIZE_T_MOD + (SIZE_T_MOD - b % SIZE_T_MOD)) % SIZE_T_MOD

/-- Addition `a + b` on `size_t`. -/
def size_add (a b : Nat) : Nat := (a + b) % SIZE_T_MOD

/-- Multiplication `a * b` on `size_t`. -/
def size_mul (a b : Nat) : Nat := (a * b) % SIZE_T_MOD

/-- The class `Array2D<T>`: public members `height`, `width`, `data`. -/
structure Array2D (T : Type) where
  height : Nat
  width : Nat
  data : List T
deriving DecidableEq

namespace Array2D

variable {T : Type}

/-- Constructor `Array2D(size_t height, size_t width)`: the data vector has
`width * height` default elements. -/
def mk_default [Inhabited T] (height width : Nat) : Array2D T :=
  { height := height, width := width,
    data := List.replicate (size_mul width height) default }

/-- Constructor `Array2D(size_t height, size_t width, T value)`. -/
def mk_value (height width : Nat) (value : T) : Array2D T :=
  { height := height, width := width,
    data := List.replicate (size_mul width height) value }

/-- The condition of `assert(i < height && j < width)`; it is not evaluated
when `NDEBUG` is defined. -/
def assert_ok (ndebug : Bool) (a : Array2D T) (i j : Nat) : Bool :=
  ndebug || (decide (i < a.height) && decide (j < a.width))

/-- The index `j + i * width` computed by both overloads of `get`. -/
def index (a : Array2D T) (i j : Nat) : Nat :=
  size_add j (size_mul i a.width)

/-- Method `const T &get(size_t i, size_t j) const`, read through. -/
def get (ndebug : Bool) (a : Array2D T) (i j : Nat) : Option T :=
  if assert_ok ndebug a i j then a.data[a.index i j]? else none

/-- Method `T &get(size_t i, size_t j)` used as the target of an assignment:
`a.get(i, j) = v`. -/
def set (ndebug : Bool) (a : Array2D T) (i j : Nat) (v : T) : Option (Array2D T) :=
  if assert_ok ndebug a i j then
    if a.index i j < a.data.length then
      some { a with data := a.data.set (a.index i j) v }
    else none
  else none

/-- Method `reflected()`. -/
def reflected [Inhabited T] (ndebug : Bool) (a : Array2D T) : Option (Array2D T) :=
  (List.range a.height).foldlM (fun result y =>
    (List.range a.width).foldlM (fun result x =>
      (a.get ndebug y (size_sub (size_sub a.width 1) x)).bind
        (fun v => result.set ndebug y x v)) result)
    (mk_default a.width a.height)

/-- Method `rotated()`. -/
def rotated [Inhabited T] (ndebug : Bool) (a : Array2D T) : Option (Array2D T) :=
  (List.range a.width).foldlM (fun result y =>
    (List.range a.height).foldlM (fun result x =>
      (a.get ndebug x (size_sub (size_sub a.width 1) y)).bind
        (fun v => result.set ndebug y x v)) result)
    (mk_default a.width a.height)

/-- The operation `n % m` on `size_t`; the divisor zero has no defined result. -/
def size_rem (n m : Nat) : Option Nat :=
  if m = 0 then none else some (n % m)

/-- Method `get_sub_array(y, x, sub_width, sub_height)`. -/
def get_sub_array [Inhabited T] (ndebug : Bool) (a : Array2D T)
    (y x sub_width sub_height : Nat) : Option (Array2D T) :=
  (List.range sub_height).foldlM (fun sub_array_2d ki =>
    (List.range sub_width).foldlM (fun sub_array_2d kj =>
      (size_rem (size_add y ki) a.height).bind (fun i =>
        (size_rem (size_add x kj) a.width).bind (fun j =>
          (a.get ndebug i j).bind (fun v => sub_array_2d.set ndebug ki kj v))))
      sub_array_2d)
    (mk_default sub_width sub_height)

/-- The loop of `operator==` over the indices still to visit: `false` at the
first index where the elements differ, `true` when none is left. -/
def eq_loop [DecidableEq T] (this_data a_data : List T) : List Nat → Option Bool
  | [] => some true
  | i :: rest =>
    match a_data[i]?, this_data[i]? with
    | some u, some v => if u ≠ v then some false else eq_loop this_data a_data rest
    | _, _ => none

/-- Method `operator==`, called as `self == a`. -/
def op_eq [DecidableEq T] (self a : Array2D T) : Option Bool :=
  if self.height ≠ a.height ∨ self.width ≠ a.width then some false
  else eq_loop self.data a.data (List.range self.data.length)

/-- Method `operator!=`, called as `self != a`. -/
def op_ne [DecidableEq T] (self a : Array2D T) : Option Bool :=
  (op_eq self a).map (fun b => !b)

/-- One round of the loop of `std::hash<Array2D<T>>::operator()`:
`seed ^= hash<T>()(i) + (size_t)0x9e3779b9 + (seed << 6) + (seed >> 2)`. -/
def hash_step (hash_T : T → Nat) (seed : Nat) (i : T) : Nat :=
  seed ^^^ size_add (size_add (size_add (hash_T i % SIZE_T_MOD) 0x9e3779b9)
    ((seed <<< 6) % SIZE_T_MOD)) (seed >>> 2)

/-- The function `std::hash<Array2D<T>>::operator()`. -/
def hash (hash_T : T → Nat) (a : Array2D T) : Nat :=
  a.data.foldl (hash_step hash_T) (a.data.length % SIZE_T_MOD)

/-- The representation invariant of the data model, `data.size() == height * width`,
together with the typing of the three members: `height`, `width` and
`data.size()` are values of `size_t`. -/
def WF (a : Array2D T) : Prop :=
  a.height < SIZE_T_MOD ∧ a.width < SIZE_T_MOD ∧ a.data.length < SIZE_T_MOD ∧
    a.data.length = a.height * a.width

instance (a : Array2D T) : Decidable (WF a) :=
  inferInstanceAs (Decidable (a.height < SIZE_T_MOD ∧ a.width < SIZE_T_MOD ∧
    a.data.length < SIZE_T_MOD ∧ a.data.length = a.height * a.width))

/-- Same dimensions and same number of elements. -/
def SameShape (r res : Array2D T) : Prop :=
  r.height = res.height ∧ r.width = res.width ∧ r.data.length = res.data.length

/-- The loop nest shared by `reflected`, `rotated` and `get_sub_array`: for
every `y < rows` and `x < cols`, the value `src y x` is stored at `(y, x)`. -/
def fill (ndebug : Bool) (src : Nat → Nat → Option T) (rows cols : Nat)
    (res : Array2D T) : Option (Array2D T) :=
  (List.range rows).foldlM (fun result y =>
    (List.range cols).foldlM (fun result x =>
      (src y x).bind (fun v => result.set ndebug y x v)) result) res

/-- The combiner in the words of the specification:
`h ← h XOR (e + 0x9e3779b9 + (h<<6) + (h>>2))`, the sum taken modulo `2 ^ 64`. -/
def spec_mix (hash_T : T → Nat) (s : Nat) (e : T) : Nat :=
  s ^^^ ((hash_T e + 0x9e3779b9 + (s <<< 6) + (s >>> 2)) % 2 ^ 64)

/-- The hash in the words of the specification: the fold of `spec_mix` over the
elements read in row-major order (row 0 left to right, then row 1, and so on),
started from the element count `height * width`. -/
def spec_hash (hash_T : T → Nat) (ndebug : Bool) (a : Array2D T) : Option Nat :=
  (List.range a.height).foldlM (fun s i =>
    (List.range a.width).foldlM (fun s j =>
      (a.get ndebug i j).map (fun e => spec_mix hash_T s e)) s)
    (a.height * a.width)

/-- A 1 x 2 array of integers: the row `10 20`. -/
def example_1x2 : Array2D Nat := { height := 1, width := 2, data := [10, 20] }

/-- A 2 x 3 array of integers: the rows `1 2 3` and `4 5 6`. -/
def example_2x3 : Array2D Nat := { height := 2, width := 3, data := [1, 2, 3, 4, 5, 6] }

/-- A 2 x 2 array of integers: the rows `1 2` and `3 4`. -/
def example_2x2 : Array2D Nat := { height := 2, width := 2, data := [1, 2, 3, 4] }

end Array2D

/-- Table `directions_x`. -/
def directions_x : List Int := [0, -1, 1, 0]

/-- Table `directions_y`. -/
def directions_y : List Int := [-1, 0, 0, 1]

/-- Function `get_opposite_direction`: `3 - direction` on `unsigned`. -/
def get_opposite_direction (direction : Nat) : Nat :=
  (3 + (UNSIGNED_MOD - direction % UNSIGNED_MOD)) % UNSIGNED_MOD


/-- The class `Array3D<T>`: public members `height`, `width`, `depth`, `data`. -/
structure Array3D (T : Type) where
  height : Nat
  width : Nat
  depth : Nat
  data : List T
deriving DecidableEq

namespace Array3D

variable {T : Type}

/-- Constructor `Array3D(size_t height, size_t width, size_t depth)`: the data
vector has `width * height * depth` default elements. -/
def mk_default [Inhabited T] (height width depth : Nat) : Array3D T :=
  { height := height, width := width, depth := depth,
    data := List.replicate (size_mul (size_mul width height) depth) default }

/-- Constructor `Array3D(size_t height, size_t width, size_t depth, T value)`. -/
def mk_value (height width depth : Nat) (value : T) : Array3D T :=
  { height := height, width := width, depth := depth,
    data := List.replicate (size_mul (size_mul width height) depth) value }

/-- The condition of `assert(i < height && j < width && k < depth)` in the
const overload of `get`; it is not evaluated when `NDEBUG` is defined. -/
def assert_ok (ndebug : Bool) (a : Array3D T) (i j k : Nat) : Bool :=
  ndebug || (decide (i < a.height) && decide (j < a.width) && decide (k < a.depth))

/-- The index `i * width * depth + j * depth + k` computed by both overloads
of `get`. -/
def index (a : Array3D T) (i j k : Nat) : Nat :=
  size_add (size_add (size_mul (size_mul i a.width) a.depth) (size_mul j a.depth)) k

/-- Method `const T &get(size_t i, size_t j, size_t k) const`, read through. -/
def get (ndebug : Bool) (a : Array3D T) (i j k : Nat) : Option T :=
  if assert_ok ndebug a i j k then a.data[a.index i j k]? else none

/-- Method `T &get(size_t i, size_t j, size_t k)`, read through; this overload
has no assertion. -/
def get_mut (a : Array3D T) (i j k : Nat) : Option T :=
  a.data[a.index i j k]?

/-- Method `T &get(size_t i, size_t j, size_t k)` used as the target of an
assignment: `a.get(i, j, k) = v`. -/
def set (a : Array3D T) (i j k : Nat) (v : T) : Option (Array3D T) :=
  if a.index i j k < a.data.length then
    some { a with data := a.data.set (a.index i j k) v }
  else none

/-- The representation invariant: `data.size() == height * width * depth`, all
four being values of `size_t`. -/
def WF (a : Array3D T) : Prop :=
  a.height < SIZE_T_MOD ∧ a.width < SIZE_T_MOD ∧ a.depth < SIZE_T_MOD ∧
    a.data.length < SIZE_T_MOD ∧ a.data.length = a.height * a.width * a.depth

instance (a : Array3D T) : Decidable (WF a) :=
  inferInstanceAs (Decidable (a.height < SIZE_T_MOD ∧ a.width < SIZE_T_MOD ∧
    a.depth < SIZE_T_MOD ∧ a.data.length < SIZE_T_MOD ∧
    a.data.length = a.height * a.width * a.depth))

/-- A 2 x 2 x 3 array of integers holding `0 .. 11`. -/
def example_2x2x3 : Array3D Nat :=
  { height := 2, width := 2, depth := 3, data := [0, 1, 2, 3, 4, 5, 6, 7, 8, 9, 10, 11] }

end Array3D

namespace Array2D

variable {T : Type}

/-- The loop of `operator==` for an element type whose `operator!=` is the
function `ne_T`. -/
def eq_loop_with (ne_T : T → T → Bool) (this_data a_data : List T) : List Nat → Option Bool
  | [] => some true
  | i :: rest =>
    match a_data[i]?, this_data[i]? with
    | some u, some v => if ne_T u v then some false else eq_loop_with ne_T this_data a_data rest
    | _, _ => none

/-- Method `operator==`, called as `self == a`, for an element type whose
`operator!=` is the function `ne_T`. -/
def op_eq_with (ne_T : T → T → Bool) (self a : Array2D T) : Option Bool :=
  if self.height ≠ a.height ∨ self.width ≠ a.width then some false
  else eq_loop_with ne_T self.data a.data (List.range self.data.length)

end Array2D

/-- Modelled from the spec: the enumeration `Symmetry` of `tiling_wfc.hpp`, a
file that is not part of the sources at hand.  The specification lists the
symmetry classes `X`, `T`, `I`, `L`, `\` and `P`; `main.cpp` names the
enumerators `X`, `T`, `I`, `L`, `backslash` and `P`. -/
inductive Symmetry where
  | X
  | T
  | I
  | L
  | backslash
  | P
deriving DecidableEq

instance instDecidableEqExcept {ε α : Type} [DecidableEq ε] [DecidableEq α] :
    DecidableEq (Except ε α)
  | .ok a, .ok b =>
    if h : a = b then isTrue (by rw [h]) else isFalse (fun h2 => h (Except.ok.inj h2))
  | .error a, .error b =>
    if h : a = b then isTrue (by rw [h]) else isFalse (fun h2 => h (Except.error.inj h2))
  | .ok _, .error _ => isFalse (fun h => Except.noConfusion h)
  | .error _, .ok _ => isFalse (fun h => Except.noConfusion h)

/-- Function `to_symmetry`: the enumerator for a symmetry name, or the thrown
string. -/
def to_symmetry (symmetry_name : String) : Except String Symmetry :=
  if symmetry_name = "X" then .ok Symmetry.X
  else if symmetry_name = "T" then .ok Symmetry.T
  else if symmetry_name = "I" then .ok Symmetry.I
  else if symmetry_name = "L" then .ok Symmetry.L
  else if symmetry_name = "\\" then .ok Symmetry.backslash
  else if symmetry_name = "P" then .ok Symmetry.P
  else .error (symmetry_name ++ "is an invalid Symmetry")

/-- What an instance did: the number of calls of `wfc.run()` and the calls of
`write_image_png`, in order, each with its path and its image. -/
structure RunLog (T : Type) where
  runs : Nat
  written : List (String × Array2D T)
deriving DecidableEq

/-- The static object `Array2D<Color>{0, 0}` that `main.cpp` compares the
result of a run with. -/
def NULL_ARR {T : Type} [Inhabited T] : Array2D T := Array2D.mk_default 0 0

/-- The loop `for (unsigned test = 0; test < 10; test++)` of
`read_overlapping_instance` and of `read_simpletiled_instance`, with `n` rounds
left.  A round builds a solver with a fresh seed and calls `wfc.run()`; the
result of the call number `i` of the instance (counted from 0) is `solver i`.
When the result differs from `NULL_ARR` it is written to `path` and the loop
is left through `break`. -/
def attempt_loop {T : Type} [Inhabited T] [DecidableEq T] (solver : Nat → Array2D T)
    (path : String) : Nat → RunLog T → Option (RunLog T)
  | 0, log => some log
  | n + 1, log =>
    let success := solver log.runs
    (Array2D.op_ne success NULL_ARR).bind (fun differs =>
      if differs then
        some { runs := log.runs + 1, written := log.written ++ [(path, success)] }
      else
        attempt_loop solver path n { runs := log.runs + 1, written := log.written })

/-- The attempts of `read_simpletiled_instance` for the instance `name` with
the subset `subset`. -/
def simpletiled_attempts {T : Type} [Inhabited T] [DecidableEq T] (solver : Nat → Array2D T)
    (name subset : String) : Option (RunLog T) :=
  attempt_loop solver ("results/" ++ name ++ "_" ++ subset ++ ".png") 10
    { runs := 0, written := [] }

/-- The attempts of `read_overlapping_instance` for the instance `name`: the
loop over `screenshot_idx < screenshots` around the loop over `test_idx < 10`. -/
def overlapping_attempts {T : Type} [Inhabited T] [DecidableEq T] (solver : Nat → Array2D T)
    (name : String) (screenshots : Nat) : Option (RunLog T) :=
  (List.range screenshots).foldlM (fun log screenshot_idx =>
    attempt_loop solver ("results/" ++ name ++ toString screenshot_idx ++ ".png") 10 log)
    { runs := 0, written := [] }

/-- A `std::unordered_map<std::string, V>`: its entries, with `find` and
`insert` as below.  The order of the list is the order of iteration. -/
abbrev StringMap (V : Type) := List (String × V)

/-- Method `find` of `std::unordered_map`: the value stored under `key`, or
`none` for `end()`. -/
def map_find {V : Type} : StringMap V → String → Option V
  | [], _ => none
  | (k, v) :: rest, key => if k = key then some v else map_find rest key

/-- Method `insert` of `std::unordered_map`: a key that is present keeps its
value. -/
def map_insert {V : Type} (m : StringMap V) (key : String) (v : V) : StringMap V :=
  if (map_find m key).isSome then m else m ++ [(key, v)]

/-- Conversion of an `unsigned` to `int`, as in
`const int &orientation1 = std::get<1>(neighbor)`. -/
def unsigned_to_int (u : Nat) : Int :=
  if u % UNSIGNED_MOD < 2147483648 then (u % UNSIGNED_MOD : Nat)
  else ((u % UNSIGNED_MOD : Nat) : Int) - 4294967296

/-- Conversion of an `int` to `unsigned`. -/
def int_to_unsigned (z : Int) : Nat := (z % 4294967296).toNat

/-- The state of the loop over `tiles_map` in `read_simpletiled_instance`. -/
structure TileIds (V : Type) where
  tiles_id : StringMap Nat
  tiles : List V
  id : Nat

/-- The loop `for (std::pair<std::string, Tile<Color>> tile : tiles_map)` of
`read_simpletiled_instance`. -/
def number_tiles {V : Type} (tiles_map : StringMap V) : TileIds V :=
  tiles_map.foldl (fun st tile =>
    { tiles_id := map_insert st.tiles_id tile.1 st.id,
      tiles := st.tiles ++ [tile.2],
      id := (st.id + 1) % UNSIGNED_MOD })
    { tiles_id := [], tiles := [], id := 0 }

/-- One round of the loop `for (auto neighbor : neighbors)` of
`read_simpletiled_instance`. -/
def neighbors_ids_step (tiles_id : StringMap Nat) (neighbors_ids : List (Nat × Nat × Nat × Nat))
    (neighbor : String × Nat × String × Nat) : List (Nat × Nat × Nat × Nat) :=
  let neighbor1 := neighbor.1
  let orientation1 := unsigned_to_int neighbor.2.1
  let neighbor2 := neighbor.2.2.1
  let orientation2 := unsigned_to_int neighbor.2.2.2
  if (map_find tiles_id neighbor1).isNone then neighbors_ids
  else if (map_find tiles_id neighbor2).isNone then neighbors_ids
  else neighbors_ids ++ [((map_find tiles_id neighbor1).getD 0, int_to_unsigned orientation1,
    (map_find tiles_id neighbor2).getD 0, int_to_unsigned orientation2)]

/-- The list `neighbors_ids` that `read_simpletiled_instance` passes to the
solver. -/
def neighbors_ids (tiles_id : StringMap Nat) (neighbors : List (String × Nat × String × Nat)) :
    List (Nat × Nat × Nat × Nat) :=
  neighbors.foldl (neighbors_ids_step tiles_id) []

/-- The list of adjacencies in the words of the specification: the tuples whose
two tile names are both among `names`, in the original order, each name
replaced by its position in `names`. -/
def spec_neighbors_ids (names : List String) (neighbors : List (String × Nat × String × Nat)) :
    List (Nat × Nat × Nat × Nat) :=
  neighbors.filterMap (fun n =>
    if n.1 ∈ names ∧ n.2.2.1 ∈ names then
      some (names.indexOf n.1, n.2.1, names.indexOf n.2.2.1, n.2.2.2)
    else none)

/-- What ends a function of `main.cpp` early: a thrown string, one of the two
exceptions of `std::stoi`, or an operation without a defined result (a null
pointer dereferenced, an index outside a vector). -/
inductive Failure where
  | thrown (message : String)
  | invalid_argument
  | out_of_range
  | undefined
deriving DecidableEq

/-- A node of the parsed document (`rapidxml::xml_node<>`): its name, its
attributes and its child nodes, in document order. -/
inductive XmlNode where
  | mk (name : String) (attributes : List (String × String)) (children : List XmlNode)

/-- The name of a node. -/
def XmlNode.name : XmlNode → String
  | .mk n _ _ => n

/-- The attributes of a node. -/
def XmlNode.attributes : XmlNode → List (String × String)
  | .mk _ a _ => a

/-- The child nodes of a node. -/
def XmlNode.children : XmlNode → List XmlNode
  | .mk _ _ c => c

/-- The nodes visited by `for (n = node->first_node(name); n; n =
n->next_sibling(name))`: the children of `node` called `name`. -/
def child_nodes (node : XmlNode) (name : String) : List XmlNode :=
  node.children.filter (fun c => c.name = name)

/-- Method `first_node(name)`: the first child called `name`, or `none` for a
null pointer. -/
def first_node (node : XmlNode) (name : String) : Option XmlNode :=
  (child_nodes node name).head?

/-- Modelled from the spec: the helper `rapidxml::get_attribute(node, attribute)`
of `rapidxml_utils.hpp`, a file that is not part of the sources at hand.  It
gives the value of the attribute; a missing attribute is a malformed
configuration, which is fatal for the instance. -/
def get_attribute (node : XmlNode) (attribute_name : String) : Except Failure String :=
  match map_find node.attributes attribute_name with
  | some value => .ok value
  | none => .error Failure.undefined

/-- Modelled from the spec: the helper
`rapidxml::get_attribute(node, attribute, default_value)` of
`rapidxml_utils.hpp`, which applies the defaults of the loader: the value of
the attribute, or `default_value` when the attribute is missing. -/
def get_attribute_or (node : XmlNode) (attribute_name default_value : String) : String :=
  (map_find node.attributes attribute_name).getD default_value

/-- Method `insert` of `std::unordered_set<std::string>`. -/
def set_insert (s : List String) (name : String) : List String :=
  if name ∈ s then s else s ++ [name]

/-- The loop `while (subset_node && get_attribute(subset_node, "name") !=
subset)` of `read_subset_names`, over the `subset` nodes still to visit. -/
def find_subset_node (subset : String) : List XmlNode → Except Failure (Option XmlNode)
  | [] => .ok none
  | subset_node :: rest =>
    match get_attribute subset_node "name" with
    | .error e => .error e
    | .ok n => if n ≠ subset then find_subset_node subset rest else .ok (some subset_node)

/-- Function `read_subset_names`. -/
def read_subset_names (root_node : XmlNode) (subset : String) : Except Failure (List String) :=
  match first_node root_node "subsets" with
  | none => .ok []
  | some subsets_node =>
    match find_subset_node subset (child_nodes subsets_node "subset") with
    | .error e => .error e
    | .ok none => .ok []
    | .ok (some subset_node) =>
      (child_nodes subset_node "tile").foldlM (fun subset_names node =>
        (get_attribute node "name").map (fun n => set_insert subset_names n)) []

/-- Modelled from the spec: the function `nb_of_possible_orientations` of
`tiling_wfc.hpp`, a file that is not part of the sources at hand: the symmetry
classes `X`, `T`, `I`, `L`, `\`, `P` have 1, 4, 2, 4, 2, 8 variants. -/
def nb_of_possible_orientations : Symmetry → Nat
  | .X => 1
  | .T => 4
  | .I => 2
  | .L => 4
  | .backslash => 2
  | .P => 8

/-- Modelled from the spec: the class `Tile<T>` of `tiling_wfc.hpp`, a file that
is not part of the sources at hand: the variants of a tile, its symmetry and
its weight.  The weight, a `double` in the source, is kept as the value `W`
that `stod` returns. -/
structure Tile (C W : Type) where
  data : List (Array2D C)
  symmetry : Symmetry
  weight : W
deriving DecidableEq

/-- The functions that `read_tiles` calls and that are not part of the sources
at hand: `read_image` of `image.hpp` (it returns `Array2D{0, 0}` when the file
cannot be loaded), `std::stod`, and the generation of the variants of a tile
from one image in the constructor `Tile(image, symmetry, weight)`. -/
structure Loader (C W : Type) where
  read_image : String → Array2D C
  stod : String → Except Failure W
  generate_oriented : Array2D C → Symmetry → List (Array2D C)

/-- The condition of the `continue` in the loop of `read_tiles`:
`subset_names.empty() && subset_names.find(name) == subset_names.end()`. -/
def tile_skipped (subset_names : List String) (name : String) : Bool :=
  subset_names.isEmpty && !(decide (name ∈ subset_names))

/-- The comparison `image == NNN` of `read_tiles`. -/
def is_null_image {C : Type} [Inhabited C] [DecidableEq C] (image : Array2D C) :
    Except Failure Bool :=
  match Array2D.op_eq image NULL_ARR with
  | some b => .ok b
  | none => .error Failure.undefined

/-- The loop `for (unsigned i = 0; i < nb_of_possible_orientations(symmetry);
i++)` of `read_tiles`, which loads one image for every orientation. -/
def read_oriented_images {C W : Type} [Inhabited C] [DecidableEq C] (loader : Loader C W)
    (current_dir name : String) (size : Nat) (symmetry : Symmetry) :
    Except Failure (List (Array2D C)) :=
  (List.range (nb_of_possible_orientations symmetry)).foldlM (fun images i =>
    let image_path := current_dir ++ "/" ++ name ++ " " ++ toString i ++ ".png"
    let image := loader.read_image image_path
    match is_null_image image with
    | .error e => .error e
    | .ok true => .error (Failure.thrown ("Error while loading " ++ image_path))
    | .ok false =>
      if image.width ≠ size ∨ image.height ≠ size then
        .error (Failure.thrown ("Image " ++ image_path ++ " has wrond size"))
      else .ok (images ++ [image])) []

/-- The body of the loop of `read_tiles` for one `tile` node. -/
def read_tile {C W : Type} [Inhabited C] [DecidableEq C] (loader : Loader C W)
    (current_dir : String) (size : Nat) (subset_names : List String)
    (tiles : StringMap (Tile C W)) (node : XmlNode) : Except Failure (StringMap (Tile C W)) :=
  match get_attribute node "name" with
  | .error e => .error e
  | .ok name =>
    if tile_skipped subset_names name then .ok tiles
    else
      match to_symmetry (get_attribute_or node "symmetry" "X") with
      | .error message => .error (Failure.thrown message)
      | .ok symmetry =>
        match loader.stod (get_attribute_or node "weight" "1.0") with
        | .error e => .error e
        | .ok weight =>
          let image_path := current_dir ++ "/" ++ name ++ ".png"
          let image := loader.read_image image_path
          match is_null_image image with
          | .error e => .error e
          | .ok true =>
            match read_oriented_images loader current_dir name size symmetry with
            | .error e => .error e
            | .ok images =>
              .ok (map_insert tiles name
                { data := images, symmetry := symmetry, weight := weight })
          | .ok false =>
            if image.width ≠ size ∨ image.height ≠ size then
              .error (Failure.thrown ("Image " ++ image_path ++ " has wrong size"))
            else
              .ok (map_insert tiles name
                { data := loader.generate_oriented image symmetry, symmetry := symmetry,
                  weight := weight })

/-- Function `read_tiles`. -/
def read_tiles {C W : Type} [Inhabited C] [DecidableEq C] (loader : Loader C W)
    (root_node : XmlNode) (current_dir subset : String) (size : Nat) :
    Except Failure (StringMap (Tile C W)) :=
  match read_subset_names root_node subset with
  | .error e => .error e
  | .ok subset_names =>
    match first_node root_node "tiles" with
    | none => .error Failure.undefined
    | some tiles_node =>
      (child_nodes tiles_node "tile").foldlM
        (read_tile loader current_dir size subset_names) []

/-- A loader for which every image loads as a 1 x 1 image. -/
def example_loader : Loader Nat String :=
  { read_image := fun _ => { height := 1, width := 1, data := [7] },
    stod := fun s => .ok s,
    generate_oriented := fun image _ => [image] }

/-- A `tile` node with the attribute `name`. -/
def example_tile (name : String) : XmlNode := .mk "tile" [("name", name)] []

/-- A data document with the tiles `a` and `b` and the subset `S`, which holds
the tile `a` only. -/
def example_with_subsets : XmlNode :=
  .mk "set" [("size", "1")]
    [.mk "tiles" [] [example_tile "a", example_tile "b"],
     .mk "subsets" [] [.mk "subset" [("name", "S")] [example_tile "a"]]]

/-- A data document with the tiles `a` and `b` and no `subsets` node. -/
def example_without_subsets : XmlNode :=
  .mk "set" [("size", "1")]
    [.mk "tiles" [] [example_tile "a", example_tile "b"]]

/-- The function `isspace` of the C library in the default locale: the space
and the characters `\t`, `\n`, `\v`, `\f`, `\r`. -/
def isspace (c : Char) : Bool :=
  c.toNat = 32 || (9 ≤ c.toNat && c.toNat ≤ 13)

/-- The function `isdigit` of the C library. -/
def isdigit (c : Char) : Bool :=
  48 ≤ c.toNat && c.toNat ≤ 57

/-- The value of a sequence of decimal digits. -/
def digits_value (digits : List Char) : Nat :=
  digits.foldl (fun acc c => 10 * acc + (c.toNat - 48)) 0

/-- The function `std::stoi(str)` of the C++ library, base 10: leading white
space is skipped, an optional sign and the longest run of digits are read;
`std::invalid_argument` is thrown when there is no digit and
`std::out_of_range` when the value is not a value of `int`. -/
def stoi (str : String) : Except Failure Int :=
  let rest := str.data.dropWhile isspace
  let negative := decide (rest.head? = some '-')
  let rest := if rest.head? = some '-' ∨ rest.head? = some '+' then rest.tail else rest
  let digits := rest.takeWhile isdigit
  if digits = [] then .error Failure.invalid_argument
  else
    let value : Int := if negative then -(digits_value digits : Int) else (digits_value digits : Int)
    if value < -2147483648 ∨ 2147483647 < value then .error Failure.out_of_range
    else .ok value

/-- The call `s.find(" ")` of `std::string`: the position of the first space,
or `none` for `std::string::npos`. -/
def find_space (s : String) : Option Nat :=
  if s.data.indexOf ' ' < s.data.length then some (s.data.indexOf ' ') else none

/-- The call `s.substr(pos, count)` of `std::string`, with `none` for the count
`std::string::npos`; `std::out_of_range` is thrown when `pos > s.size()`. -/
def substr (s : String) (pos : Nat) (count : Option Nat) : Except Failure String :=
  if s.data.length < pos then .error Failure.out_of_range
  else
    match count with
    | none => .ok (String.mk (s.data.drop pos))
    | some n => .ok (String.mk ((s.data.drop pos).take n))

/-- The statements of `read_neighbors` that split the attribute `left` into
`left_tile` and `left_orientation`, and the attribute `right` in the same way. -/
def read_neighbor_side (left : String) : Except Failure (String × Nat) :=
  let left_delimiter := find_space left
  match substr left 0 left_delimiter with
  | .error e => .error e
  | .ok left_tile =>
    match left_delimiter with
    | none => .ok (left_tile, 0)
    | some pos =>
      match substr left pos none with
      | .error e => .error e
      | .ok text =>
        match stoi text with
        | .error e => .error e
        | .ok value => .ok (left_tile, int_to_unsigned value)

/-- Function `read_neighbors`. -/
def read_neighbors (root_node : XmlNode) :
    Except Failure (List (String × Nat × String × Nat)) :=
  match first_node root_node "neighbors" with
  | none => .error Failure.undefined
  | some neighbor_node =>
    (child_nodes neighbor_node "neighbor").foldlM (fun neighbors node =>
      match get_attribute node "left" with
      | .error e => .error e
      | .ok left =>
        match read_neighbor_side left with
        | .error e => .error e
        | .ok (left_tile, left_orientation) =>
          match get_attribute node "right" with
          | .error e => .error e
          | .ok right =>
            match read_neighbor_side right with
            | .error e => .error e
            | .ok (right_tile, right_orientation) =>
              .ok (neighbors ++ [(left_tile, left_orientation, right_tile, right_orientation)]))
      []

/-- A data document whose only adjacency has the attributes `left` and `right`. -/
def example_neighbors (left right : String) : XmlNode :=
  .mk "set" []
    [.mk "neighbors" [] [.mk "neighbor" [("left", left), ("right", right)] []]]

/-- One call of `rotated()` or of `reflected()`. -/
inductive Transform where
  | rotate
  | reflect
deriving DecidableEq

namespace Array2D

variable {T : Type}

/-- A sequence of calls of `rotated()` and `reflected()`, the first of the list
applied first. -/
def apply_transforms [Inhabited T] (ndebug : Bool) : List Transform → Array2D T →
    Option (Array2D T)
  | [], g => some g
  | Transform.rotate :: rest, g => (rotated ndebug g).bind (apply_transforms ndebug rest)
  | Transform.reflect :: rest, g => (reflected ndebug g).bind (apply_transforms ndebug rest)

/-- Eight sequences of calls: up to three rotations, after no or one reflection. -/
def canonical_words : List (List Transform) :=
  [[], [Transform.rotate], [Transform.rotate, Transform.rotate],
   [Transform.rotate, Transform.rotate, Transform.rotate],
   [Transform.reflect], [Transform.reflect, Transform.rotate],
   [Transform.reflect, Transform.rotate, Transform.rotate],
   [Transform.reflect, Transform.rotate, Transform.rotate, Transform.rotate]]

/-- The results of the eight sequences of `canonical_words` on `g`. -/
def variants [Inhabited T] (ndebug : Bool) (g : Array2D T) : List (Array2D T) :=
  canonical_words.filterMap (fun word => apply_transforms ndebug word g)

end Array2D

/-- A way to read a square of side `n`: the two coordinates are swapped or
not, and each of them is counted from the far end or not. -/
structure SquareMap where
  swap : Bool
  flip_y : Bool
  flip_x : Bool
deriving DecidableEq

namespace SquareMap

/-- The position read for the position `(y, x)`. -/
def apply (m : SquareMap) (n y x : Nat) : Nat × Nat :=
  ((if m.flip_y then n - 1 - (if m.swap then x else y) else (if m.swap then x else y)),
   (if m.flip_x then n - 1 - (if m.swap then y else x) else (if m.swap then y else x)))

/-- Reading through `m` what `rotated()` made. -/
def after_rotate (m : SquareMap) : SquareMap :=
  if m.swap then { swap := false, flip_y := !m.flip_y, flip_x := m.flip_x }
  else { swap := true, flip_y := m.flip_y, flip_x := !m.flip_x }

/-- Reading through `m` what `reflected()` made. -/
def after_reflect (m : SquareMap) : SquareMap :=
  if m.swap then { swap := true, flip_y := !m.flip_y, flip_x := m.flip_x }
  else { swap := false, flip_y := m.flip_y, flip_x := !m.flip_x }

/-- The identity. -/
def ident : SquareMap := { swap := false, flip_y := false, flip_x := false }

/-- The way a sequence of calls reads the original, started from `m`. -/
def after : List Transform → SquareMap → SquareMap
  | [], m => m
  | Transform.rotate :: rest, m => after rest m.after_rotate
  | Transform.reflect :: rest, m => after rest m.after_reflect

end SquareMap

namespace Array2D

variable {T : Type}

/-- The array `r` is `g` read through `m`: same dimensions, and the element of
`r` at `(y, x)` is the element of `g` at the position `m` gives. -/
def IsImage (ndebug : Bool) (m : SquareMap) (g r : Array2D T) : Prop :=
  WF r ∧ r.height = g.height ∧ r.width = g.width ∧
    ∀ y x, y < g.height → x < g.width →
      r.get ndebug y x = g.get ndebug (m.apply g.height y x).1 (m.apply g.height y x).2

end Array2D

/-! ## Index arithmetic and the loop nest -/

namespace Array2D

variable {T : Type}

/-- An in-bounds cell has its row-major index below `h * w`. -/
theorem cell_lt {h w i j : Nat} (hi : i < h) (hj : j < w) : j + i * w < h * w := by
  have h1 : (i + 1) * w ≤ h * w := Nat.mul_le_mul_right w hi
  have h2 : (i + 1) * w = i * w + w := by ring
  omega

/-- Two cells of a row-major layout with the same index are the same cell. -/
theorem cell_inj {w i j i' j' : Nat} (hj : j < w) (hj' : j' < w)
    (h : j + i * w = j' + i' * w) : i = i' ∧ j = j' := by
  have hw : 0 < w := by omega
  have e1 : (j + i * w) / w = i := by
    rw [Nat.add_mul_div_right _ _ hw, Nat.div_eq_of_lt hj, Nat.zero_add]
  have e2 : (j' + i' * w) / w = i' := by
    rw [Nat.add_mul_div_right _ _ hw, Nat.div_eq_of_lt hj', Nat.zero_add]
  have hi : i = i' := by rw [← e1, ← e2, h]
  subst hi
  exact ⟨rfl, by omega⟩

/-- Under the invariant the index computed by `get` does not wrap around. -/
theorem index_eq {a : Array2D T} (hwf : WF a) {i j : Nat} (hi : i < a.height)
    (hj : j < a.width) : a.index i j = j + i * a.width := by
  obtain ⟨_, _, h3, h4⟩ := hwf
  have := cell_lt hi hj
  have h5 : i * a.width ≤ j + i * a.width := Nat.le_add_left _ _
  unfold index size_add size_mul
  rw [Nat.mod_eq_of_lt (a := i * a.width) (by omega), Nat.mod_eq_of_lt (by omega)]

/-- The assertion of `get` holds at an in-bounds position. -/
theorem assert_ok_of_lt (ndebug : Bool) {a : Array2D T} {i j : Nat} (hi : i < a.height)
    (hj : j < a.width) : assert_ok ndebug a i j = true := by
  simp [assert_ok, hi, hj]

/-- Reading at an in-bounds position reads `data[j + i * width]`. -/
theorem get_eq (ndebug : Bool) {a : Array2D T} (hwf : WF a) {i j : Nat}
    (hi : i < a.height) (hj : j < a.width) :
    a.get ndebug i j = a.data[j + i * a.width]? := by
  simp [get, assert_ok_of_lt ndebug hi hj, index_eq hwf hi hj]

/-- Writing at an in-bounds position replaces `data[j + i * width]`. -/
theorem set_eq (ndebug : Bool) {a : Array2D T} (hwf : WF a) {i j : Nat}
    (hi : i < a.height) (hj : j < a.width) (v : T) :
    a.set ndebug i j v = some { a with data := a.data.set (j + i * a.width) v } := by
  have := cell_lt hi hj
  have h4 := hwf.2.2.2
  simp [set, assert_ok_of_lt ndebug hi hj, index_eq hwf hi hj]
  omega


/-- The invariant depends only on the dimensions and the element count. -/
theorem WF.of_sameShape {r res : Array2D T} (h : SameShape r res) (hwf : WF res) : WF r := by
  obtain ⟨h1, h2, h3⟩ := h
  unfold WF at *
  rw [h1, h2, h3]; exact hwf

/-- Inner loop of `fill`: after `cols` rounds, row `y` holds the values of
`src` in its first `cols` columns and every other cell is unchanged. -/
theorem fill_row_spec (ndebug : Bool) (src : Nat → Option T) (y : Nat) (res : Array2D T)
    (hwf : WF res) (hy : y < res.height) :
    ∀ cols, cols ≤ res.width → (∀ x, x < cols → (src x).isSome = true) →
    ∃ r, (List.range cols).foldlM (fun result x =>
          (src x).bind (fun v => result.set ndebug y x v)) res = some r ∧
      SameShape r res ∧
      ∀ i j, i < res.height → j < res.width →
        r.data[j + i * res.width]? =
          if i = y ∧ j < cols then src j else res.data[j + i * res.width]? := by
  intro cols
  induction cols with
  | zero =>
    intro _ _
    exact ⟨res, by simp, ⟨rfl, rfl, rfl⟩, by simp⟩
  | succ n ih =>
    intro hle hsrc
    obtain ⟨r, hr, hshape, hdata⟩ := ih (by omega) (fun x hx => hsrc x (by omega))
    have hwfr : WF r := WF.of_sameShape hshape hwf
    obtain ⟨v, hv⟩ := Option.isSome_iff_exists.mp (hsrc n (by omega))
    have hyr : y < r.height := by rw [hshape.1]; exact hy
    have hnr : n < r.width := by rw [hshape.2.1]; omega
    have hlt : n + y * res.width < res.data.length := by
      rw [hwf.2.2.2]; exact cell_lt hy (by omega)
    refine ⟨{ r with data := r.data.set (n + y * r.width) v }, ?_, ?_, ?_⟩
    · rw [List.range_succ, List.foldlM_append, hr]
      simp [hv, set_eq ndebug hwfr hyr hnr]
    · exact ⟨hshape.1, hshape.2.1, by simp [hshape.2.2]⟩
    · intro i j hi hj
      simp only [List.getElem?_set, hshape.2.1, hshape.2.2]
      by_cases hc : n + y * res.width = j + i * res.width
      · obtain ⟨e1, e2⟩ := cell_inj (by omega) hj hc
        subst e1 e2
        simp [hlt, hv]
      · rw [if_neg hc, hdata i j hi hj]
        by_cases hiy : i = y
        · subst hiy
          have hjn : j ≠ n := by rintro rfl; exact hc rfl
          have : (j < n + 1) = (j < n) := by
            apply propext; omega
          simp [this]
        · simp [hiy]

/-- Loop nest of `fill`: after `rows` rounds of the outer loop the first
`rows` rows hold the values of `src` in their first `cols` columns and every
other cell is unchanged. -/
theorem fill_spec (ndebug : Bool) (src : Nat → Nat → Option T) (cols : Nat) (res : Array2D T)
    (hwf : WF res) (hcols : cols ≤ res.width) :
    ∀ rows, rows ≤ res.height →
    (∀ y x, y < rows → x < cols → (src y x).isSome = true) →
    ∃ r, fill ndebug src rows cols res = some r ∧ SameShape r res ∧
      ∀ i j, i < res.height → j < res.width →
        r.data[j + i * res.width]? =
          if i < rows ∧ j < cols then src i j else res.data[j + i * res.width]? := by
  intro rows
  induction rows with
  | zero =>
    intro _ _
    exact ⟨res, by simp [fill], ⟨rfl, rfl, rfl⟩, by simp⟩
  | succ n ih =>
    intro hle hsrc
    obtain ⟨r, hr, hshape, hdata⟩ := ih (by omega) (fun y x hy hx => hsrc y x (by omega) hx)
    have hwfr : WF r := WF.of_sameShape hshape hwf
    obtain ⟨r', hr', hshape', hdata'⟩ := fill_row_spec ndebug (src n) n r hwfr
      (by rw [hshape.1]; omega) cols (by rw [hshape.2.1]; exact hcols)
      (fun x hx => hsrc n x (by omega) hx)
    refine ⟨r', ?_, ?_, ?_⟩
    · unfold fill at hr ⊢
      rw [List.range_succ, List.foldlM_append, hr]
      simpa using hr'
    · exact ⟨hshape'.1.trans hshape.1, hshape'.2.1.trans hshape.2.1,
        hshape'.2.2.trans hshape.2.2⟩
    · intro i j hi hj
      have h1 := hdata' i j (by rw [hshape.1]; exact hi) (by rw [hshape.2.1]; exact hj)
      rw [hshape.2.1] at h1
      rw [h1, hdata i j hi hj]
      by_cases hjc : j < cols
      · by_cases hin : i = n
        · subst hin; simp [hjc]
        · have : (i < n + 1) = (i < n) := by apply propext; omega
          simp [hin, this]
      · simp [hjc]


/-- The expression `width - 1 - y` does not wrap around for `y < width`. -/
theorem size_sub_sub {w y : Nat} (hw : w < SIZE_T_MOD) (hy : y < w) :
    size_sub (size_sub w 1) y = w - 1 - y := by
  simp only [size_sub, SIZE_T_MOD] at *
  omega

/-- The array built by `Array2D<T>(width, height)` from an array satisfying
the invariant satisfies it too. -/
theorem WF.mk_default_swap [Inhabited T] {a : Array2D T} (hwf : WF a) :
    WF (mk_default a.width a.height : Array2D T) := by
  obtain ⟨h1, h2, h3, h4⟩ := hwf
  have h5 : a.height * a.width < SIZE_T_MOD := by rw [← h4]; exact h3
  refine ⟨h2, h1, ?_, ?_⟩
  · simp only [mk_default, List.length_replicate, size_mul]
    exact Nat.mod_lt _ (by decide)
  · simp only [mk_default, List.length_replicate, size_mul]
    rw [Nat.mod_eq_of_lt h5, Nat.mul_comm]

/-- Reading at an in-bounds position returns an element. -/
theorem get_isSome (ndebug : Bool) {a : Array2D T} (hwf : WF a) {i j : Nat}
    (hi : i < a.height) (hj : j < a.width) : (a.get ndebug i j).isSome = true := by
  rw [get_eq ndebug hwf hi hj]
  have := cell_lt hi hj
  have h4 := hwf.2.2.2
  simp only [Option.isSome_iff_exists]
  exact ⟨a.data[j + i * a.width], List.getElem?_eq_getElem (by omega)⟩

/-- The result of `rotated()`: dimensions swapped, element `(y, x)` taken from
`(x, width - 1 - y)`. -/
theorem rotated_spec [Inhabited T] (ndebug : Bool) (a : Array2D T) (hwf : WF a) :
    ∃ r, rotated ndebug a = some r ∧ WF r ∧ r.height = a.width ∧ r.width = a.height ∧
      ∀ y x, y < a.width → x < a.height →
        r.get ndebug y x = a.get ndebug x (a.width - 1 - y) := by
  have hres := WF.mk_default_swap hwf
  obtain ⟨r, hr, hshape, hdata⟩ := fill_spec ndebug
    (fun y x => a.get ndebug x (size_sub (size_sub a.width 1) y)) a.height
    (mk_default a.width a.height) hres (Nat.le_refl _) a.width (Nat.le_refl _)
    (by
      intro y x hy hx
      show (a.get ndebug x (size_sub (size_sub a.width 1) y)).isSome = true
      rw [size_sub_sub hwf.2.1 hy]
      exact get_isSome ndebug hwf hx (by omega))
  have hwfr : WF r := WF.of_sameShape hshape hres
  refine ⟨r, hr, hwfr, hshape.1, hshape.2.1, ?_⟩
  intro y x hy hx
  have hyr : y < r.height := by rw [hshape.1]; exact hy
  have hxr : x < r.width := by rw [hshape.2.1]; exact hx
  have hw : r.width = a.height := hshape.2.1
  rw [get_eq ndebug hwfr hyr hxr, hw]
  have := hdata y x hy hx
  simp only [mk_default] at this
  rw [this, if_pos ⟨hy, hx⟩, size_sub_sub hwf.2.1 hy]


/-- Every index below `h * w` is the row-major index of an in-bounds cell. -/
theorem cell_surj {h w k : Nat} (hk : k < h * w) :
    k / w < h ∧ k % w < w ∧ k % w + k / w * w = k := by
  have hw : 0 < w := by
    rcases Nat.eq_zero_or_pos w with h0 | h0
    · subst h0; simp at hk
    · exact h0
  refine ⟨?_, Nat.mod_lt _ hw, ?_⟩
  · exact (Nat.div_lt_iff_lt_mul hw).mpr hk
  · rw [Nat.mul_comm]; exact Nat.mod_add_div k w

/-- Two arrays of the same dimensions with the same element at every
position have the same data vector. -/
theorem data_ext {a b : Array2D T} (ha : WF a) (hb : WF b) (hh : a.height = b.height)
    (hw : a.width = b.width)
    (hcell : ∀ i j, i < a.height → j < a.width →
      a.data[j + i * a.width]? = b.data[j + i * a.width]?) : a.data = b.data := by
  apply List.ext_getElem?
  intro k
  by_cases hk : k < a.height * a.width
  · obtain ⟨h1, h2, h3⟩ := cell_surj hk
    have := hcell (k / a.width) (k % a.width) h1 h2
    rwa [h3] at this
  · have la : a.data.length ≤ k := by rw [ha.2.2.2]; omega
    have lb : b.data.length ≤ k := by rw [hb.2.2.2, ← hh, ← hw]; omega
    rw [List.getElem?_eq_none la, List.getElem?_eq_none lb]

/-- The loop of `operator==` over in-range indices returns whether the two
vectors agree at all of them. -/
theorem eq_loop_spec [DecidableEq T] (this_data a_data : List T) :
    ∀ l : List Nat, (∀ i ∈ l, i < this_data.length ∧ i < a_data.length) →
      eq_loop this_data a_data l = some (decide (∀ i ∈ l, a_data[i]? = this_data[i]?)) := by
  intro l
  induction l with
  | nil => intro _; simp [eq_loop]
  | cons i rest ih =>
    intro hl
    obtain ⟨h1, h2⟩ := hl i (List.mem_cons_self _ _)
    have ih' := ih (fun k hk => hl k (List.mem_cons_of_mem _ hk))
    have hiff : a_data[i]? = this_data[i]? ↔ a_data[i] = this_data[i] := by
      rw [List.getElem?_eq_getElem h1, List.getElem?_eq_getElem h2]
      exact Option.some_inj
    rw [eq_loop, List.getElem?_eq_getElem h1, List.getElem?_eq_getElem h2]
    simp only [ne_eq, ite_not, List.mem_cons, forall_eq_or_imp, Option.some.injEq]
    by_cases hv : a_data[i] = this_data[i]
    · simp [hv, ih', hiff]
    · simp [hv, hiff]

/-- Under the invariant `operator==` decides equality of the three members. -/
theorem op_eq_spec [DecidableEq T] {self a : Array2D T} (hs : WF self) (ha : WF a) :
    op_eq self a = some (decide (self = a)) := by
  unfold op_eq
  by_cases hd : self.height ≠ a.height ∨ self.width ≠ a.width
  · rw [if_pos hd]
    have : self ≠ a := by
      rintro rfl
      rcases hd with h | h <;> exact h rfl
    simp [this]
  · rw [if_neg hd]
    have hh : self.height = a.height := by
      by_contra h; exact hd (Or.inl h)
    have hw : self.width = a.width := by
      by_contra h; exact hd (Or.inr h)
    have hlen : self.data.length = a.data.length := by
      rw [hs.2.2.2, ha.2.2.2, hh, hw]
    rw [eq_loop_spec _ _ _ (by
      intro i hi
      rw [List.mem_range] at hi
      exact ⟨hi, by omega⟩)]
    congr 1
    apply decide_eq_decide.mpr
    constructor
    · intro hall
      have hdata : self.data = a.data := by
        apply List.ext_getElem?
        intro k
        by_cases hk : k < self.data.length
        · exact (hall k (List.mem_range.mpr hk)).symm
        · rw [List.getElem?_eq_none (by omega), List.getElem?_eq_none (by omega)]
      cases self; cases a; simp_all
    · rintro rfl; simp


/-- One round of the hash loop is the combiner of the specification. -/
theorem hash_step_eq_spec_mix (hash_T : T → Nat) (s : Nat) (e : T) :
    hash_step hash_T s e = spec_mix hash_T s e := by
  unfold hash_step spec_mix size_add SIZE_T_MOD
  congr 1
  norm_num

/-- Folding over one more element of a prefix. -/
theorem foldl_take_succ {α β : Type} (f : β → α → β) (s : β) (l : List α) (k : Nat)
    (hk : k < l.length) :
    (l.take (k + 1)).foldl f s = f ((l.take k).foldl f s) l[k] := by
  rw [List.take_succ, List.foldl_append, List.getElem?_eq_getElem hk]
  simp

/-- Row `i` of the row-major fold consumes `data[i * width ..]`. -/
theorem spec_hash_row (hash_T : T → Nat) (ndebug : Bool) (a : Array2D T) (hwf : WF a)
    (s0 : Nat) (i : Nat) (hi : i < a.height) :
    ∀ m, m ≤ a.width →
      (List.range m).foldlM (fun s j =>
        (a.get ndebug i j).map (fun e => spec_mix hash_T s e))
        ((a.data.take (i * a.width)).foldl (hash_step hash_T) s0) =
      some ((a.data.take (i * a.width + m)).foldl (hash_step hash_T) s0) := by
  intro m
  induction m with
  | zero => intro _; simp
  | succ n ih =>
    intro hle
    have hlt : n + i * a.width < a.data.length := by
      rw [hwf.2.2.2]; exact cell_lt hi (by omega)
    rw [List.range_succ, List.foldlM_append, ih (by omega)]
    rw [← Nat.add_assoc, foldl_take_succ _ _ _ _ (by omega)]
    simp only [List.foldlM_cons, List.foldlM_nil, Option.some_bind, Option.bind_eq_bind]
    have hget : a.data[n + i * a.width]? = a.data[i * a.width + n]? := by
      rw [Nat.add_comm]
    rw [get_eq ndebug hwf hi (by omega), hget, List.getElem?_eq_getElem (by omega)]
    simp [hash_step_eq_spec_mix]

/-- The first `n` rows of the row-major fold consume the first `n * width`
elements of `data`. -/
theorem spec_hash_rows (hash_T : T → Nat) (ndebug : Bool) (a : Array2D T) (hwf : WF a)
    (s0 : Nat) :
    ∀ n, n ≤ a.height →
      (List.range n).foldlM (fun s i =>
        (List.range a.width).foldlM (fun s j =>
          (a.get ndebug i j).map (fun e => spec_mix hash_T s e)) s) s0 =
      some ((a.data.take (n * a.width)).foldl (hash_step hash_T) s0) := by
  intro n
  induction n with
  | zero => intro _; simp
  | succ k ih =>
    intro hle
    rw [List.range_succ, List.foldlM_append, ih (by omega)]
    simp only [List.foldlM_cons, List.foldlM_nil, Option.some_bind, Option.bind_eq_bind]
    have := spec_hash_row hash_T ndebug a hwf s0 k (by omega) a.width (Nat.le_refl _)
    rw [show (k + 1) * a.width = k * a.width + a.width by ring]
    simpa using this

/-- The row-major fold of the specification is the hash loop of the code. -/
theorem spec_hash_eq (hash_T : T → Nat) (ndebug : Bool) (a : Array2D T) (hwf : WF a) :
    spec_hash hash_T ndebug a = some (hash hash_T a) := by
  unfold spec_hash hash
  rw [spec_hash_rows hash_T ndebug a hwf _ a.height (Nat.le_refl _)]
  rw [← hwf.2.2.2, List.take_length, Nat.mod_eq_of_lt hwf.2.2.1]


/-! ## Square arrays -/

/-- A default-constructed array whose element count fits in `size_t` satisfies
the invariant. -/
theorem WF.mk_default_of_lt [Inhabited T] {h w : Nat} (hh : h < SIZE_T_MOD)
    (hw : w < SIZE_T_MOD) (hsize : h * w < SIZE_T_MOD) :
    WF (mk_default h w : Array2D T) := by
  refine ⟨hh, hw, ?_, ?_⟩
  · simp only [mk_default, List.length_replicate, size_mul]
    exact Nat.mod_lt _ (by decide)
  · simp only [mk_default, List.length_replicate, size_mul]
    rw [Nat.mul_comm w h, Nat.mod_eq_of_lt hsize]

/-- On a square array `reflected()` returns the horizontal flip. -/
theorem reflected_spec_square [Inhabited T] (ndebug : Bool) (a : Array2D T) (hwf : WF a)
    (hsq : a.height = a.width) :
    ∃ r, reflected ndebug a = some r ∧ WF r ∧ r.height = a.height ∧ r.width = a.width ∧
      ∀ y x, y < a.height → x < a.width →
        r.get ndebug y x = a.get ndebug y (a.width - 1 - x) := by
  have hres := WF.mk_default_swap hwf
  obtain ⟨r, hr, hshape, hdata⟩ := fill_spec ndebug
    (fun y x => a.get ndebug y (size_sub (size_sub a.width 1) x)) a.width
    (mk_default a.width a.height) hres (Nat.le_of_eq hsq.symm) a.height (Nat.le_of_eq hsq)
    (by
      intro y x hy hx
      show (a.get ndebug y (size_sub (size_sub a.width 1) x)).isSome = true
      rw [size_sub_sub hwf.2.1 hx]
      exact get_isSome ndebug hwf hy (by omega))
  have hwfr : WF r := WF.of_sameShape hshape hres
  have hh : r.height = a.width := hshape.1
  have hw : r.width = a.height := hshape.2.1
  refine ⟨r, hr, hwfr, hh.trans hsq.symm, hw.trans hsq, ?_⟩
  intro y x hy hx
  rw [get_eq ndebug hwfr (by omega) (by omega), hw]
  have := hdata y x (show y < a.width by omega) (show x < a.height by omega)
  simp only [mk_default] at this
  rw [this, if_pos ⟨hy, hx⟩, size_sub_sub hwf.2.1 hx]

/-- The loop nest of `get_sub_array` in the shape of `fill`. -/
theorem get_sub_array_eq_fill [Inhabited T] (ndebug : Bool) (a : Array2D T)
    (y x sub_width sub_height : Nat) :
    get_sub_array ndebug a y x sub_width sub_height =
      fill ndebug (fun ki kj =>
        (size_rem (size_add y ki) a.height).bind (fun i =>
          (size_rem (size_add x kj) a.width).bind (fun j => a.get ndebug i j)))
        sub_height sub_width (mk_default sub_width sub_height) := by
  unfold get_sub_array fill
  congr 1
  funext r ki
  congr 1
  funext r kj
  simp only [Option.bind_assoc]

/-- A square toric window of a non-empty array: `get_sub_array(y, x, n, n)`
returns an `n` x `n` array holding the elements at the wrapped positions. -/
theorem get_sub_array_spec_square [Inhabited T] (ndebug : Bool) (a : Array2D T) (hwf : WF a)
    (hh : 0 < a.height) (hw : 0 < a.width) (y x n : Nat) (hn : n * n < SIZE_T_MOD) :
    ∃ r, get_sub_array ndebug a y x n n = some r ∧ WF r ∧ r.height = n ∧ r.width = n ∧
      ∀ ki kj, ki < n → kj < n →
        r.get ndebug ki kj =
          a.get ndebug ((y + ki) % SIZE_T_MOD % a.height) ((x + kj) % SIZE_T_MOD % a.width) := by
  have hn' : n < SIZE_T_MOD := by
    rcases Nat.eq_zero_or_pos n with h0 | h0
    · subst h0; decide
    · exact Nat.lt_of_le_of_lt (Nat.le_mul_of_pos_left n h0) hn
  have hres : WF (mk_default n n : Array2D T) := WF.mk_default_of_lt hn' hn' hn
  have hsrc : ∀ ki kj : Nat,
      (size_rem (size_add y ki) a.height).bind (fun i =>
        (size_rem (size_add x kj) a.width).bind (fun j => a.get ndebug i j)) =
      a.get ndebug ((y + ki) % SIZE_T_MOD % a.height) ((x + kj) % SIZE_T_MOD % a.width) := by
    intro ki kj
    simp [size_rem, size_add, Nat.pos_iff_ne_zero.mp hh, Nat.pos_iff_ne_zero.mp hw]
  obtain ⟨r, hr, hshape, hdata⟩ := fill_spec ndebug
    (fun ki kj =>
      (size_rem (size_add y ki) a.height).bind (fun i =>
        (size_rem (size_add x kj) a.width).bind (fun j => a.get ndebug i j))) n
    (mk_default n n) hres (Nat.le_refl _) n (Nat.le_refl _)
    (by
      intro ki kj _ _
      show ((size_rem (size_add y ki) a.height).bind (fun i =>
        (size_rem (size_add x kj) a.width).bind (fun j => a.get ndebug i j))).isSome = true
      rw [hsrc]
      exact get_isSome ndebug hwf (Nat.mod_lt _ hh) (Nat.mod_lt _ hw))
  have hwfr : WF r := WF.of_sameShape hshape hres
  have h1 : r.height = n := hshape.1
  have h2 : r.width = n := hshape.2.1
  refine ⟨r, by rw [get_sub_array_eq_fill]; exact hr, hwfr, h1, h2, ?_⟩
  intro ki kj hki hkj
  rw [get_eq ndebug hwfr (by omega) (by omega), h2]
  have := hdata ki kj hki hkj
  simp only [mk_default] at this
  rw [this, if_pos ⟨hki, hkj⟩, hsrc]

/-- On a square array the double reflection is equal to the original. -/
theorem reflected_twice_square [Inhabited T] [DecidableEq T] (ndebug : Bool) (g : Array2D T)
    (hwf : WF g) (hsq : g.height = g.width) :
    (((reflected ndebug g).bind (reflected ndebug)).bind (fun r => op_eq r g)) = some true := by
  obtain ⟨r1, e1, w1, hh1, hw1, g1⟩ := reflected_spec_square ndebug g hwf hsq
  obtain ⟨r2, e2, w2, hh2, hw2, g2⟩ := reflected_spec_square ndebug r1 w1 (by omega)
  have hdata : r2.data = g.data := by
    apply data_ext w2 hwf (by omega) (by omega)
    intro i j hi hj
    have k2 := g2 i j (by omega) (by omega)
    have k1 := g1 i (r1.width - 1 - j) (by omega) (by omega)
    have a1 : g.width - 1 - (r1.width - 1 - j) = j := by omega
    rw [a1] at k1
    have key : r2.get ndebug i j = g.get ndebug i j := by rw [k2, k1]
    rw [get_eq ndebug w2 hi hj, get_eq ndebug hwf (by omega) (by omega)] at key
    rw [show g.width = r2.width by omega] at key
    exact key
  have hr : r2 = g := by
    cases r2; cases g; simp_all
  rw [e1, Option.some_bind, e2, Option.some_bind, op_eq_spec w2 hwf, hr]
  simp

/-- On a square array the full-size window at the origin is equal to the
original. -/
theorem sub_array_full_square [Inhabited T] [DecidableEq T] (ndebug : Bool) (g : Array2D T)
    (hwf : WF g) (hsq : g.height = g.width) :
    ((get_sub_array ndebug g 0 0 g.width g.height).bind (fun r => op_eq r g)) = some true := by
  rcases Nat.eq_zero_or_pos g.width with h0 | h0
  · have hh0 : g.height = 0 := by omega
    have hlen : g.data = [] := by
      apply List.eq_nil_of_length_eq_zero
      rw [hwf.2.2.2, hh0, Nat.zero_mul]
    have hg : g = { height := 0, width := 0, data := [] } := by
      cases g; simp_all
    subst hg
    cases ndebug <;> rfl
  · have hsize : g.width * g.width < SIZE_T_MOD := by
      have := hwf.2.2.1
      rw [hwf.2.2.2, hsq] at this
      exact this
    rw [hsq]
    obtain ⟨r, e, wr, hh, hw, hg⟩ := get_sub_array_spec_square ndebug g hwf (by omega) h0 0 0
      g.width hsize
    have hdata : r.data = g.data := by
      apply data_ext wr hwf (by omega) (by omega)
      intro i j hi hj
      have k := hg i j (by omega) (by omega)
      have b1 := hwf.1
      have b2 := hwf.2.1
      have c1 : i % SIZE_T_MOD = i := Nat.mod_eq_of_lt (by omega)
      have c2 : j % SIZE_T_MOD = j := Nat.mod_eq_of_lt (by omega)
      have a1 : (0 + i) % SIZE_T_MOD % g.height = i := by
        rw [Nat.zero_add, c1]; exact Nat.mod_eq_of_lt (by omega)
      have a2 : (0 + j) % SIZE_T_MOD % g.width = j := by
        rw [Nat.zero_add, c2]; exact Nat.mod_eq_of_lt (by omega)
      rw [a1, a2, get_eq ndebug wr hi hj, get_eq ndebug hwf (by omega) (by omega)] at k
      rw [show g.width = r.width by omega] at k
      exact k
    have hr : r = g := by
      cases r; cases g; simp_all
    rw [e, Option.some_bind, op_eq_spec wr hwf, hr]
    simp

/-! ## The claims -/

/-- C1 (evaluation at a failing input): on the 1 x 2 array `10 20` the double
reflection does not produce an array equal to the original.  `reflected()`
builds its result with `Array2D<T>(width, height)`, that is with height 2 and
width 1.  With assertions compiled in, the first `reflected()` stops at
`result.get(0, 1)`; with `NDEBUG` the first call returns a 2 x 1 array and the
second call writes `result.data[2]` in a vector of two elements. -/
theorem reflected_twice_at_1x2 :
    reflected false example_1x2 = none ∧
      reflected true example_1x2 = some { height := 2, width := 1, data := [20, 10] } ∧
      reflected true { height := 2, width := 1, data := [20, 10] } = (none : Option (Array2D Nat)) ∧
      ∀ ndebug : Bool, (((reflected ndebug example_1x2).bind (reflected ndebug)).bind
        (fun r => op_eq r example_1x2)) = none := by
  refine ⟨by decide, by decide, by decide, ?_⟩
  intro ndebug
  cases ndebug <;> decide

/-- C2: for every array `g` satisfying the invariant of the data model, four
successive calls of `rotated()` all return, and the fourth result is equal to
`g` under `operator==`. -/
theorem rotated_four_times [Inhabited T] [DecidableEq T] (ndebug : Bool) (g : Array2D T)
    (hwf : WF g) :
    (((((rotated ndebug g).bind (rotated ndebug)).bind (rotated ndebug)).bind
      (rotated ndebug)).bind (fun r => op_eq r g)) = some true := by
  obtain ⟨r1, e1, w1, hh1, hw1, g1⟩ := rotated_spec ndebug g hwf
  obtain ⟨r2, e2, w2, hh2, hw2, g2⟩ := rotated_spec ndebug r1 w1
  obtain ⟨r3, e3, w3, hh3, hw3, g3⟩ := rotated_spec ndebug r2 w2
  obtain ⟨r4, e4, w4, hh4, hw4, g4⟩ := rotated_spec ndebug r3 w3
  have hheight : r4.height = g.height := by rw [hh4, hw3, hh2, hw1]
  have hwidth : r4.width = g.width := by rw [hw4, hh3, hw2, hh1]
  have hdata : r4.data = g.data := by
    apply data_ext w4 hwf hheight hwidth
    intro i j hi hj
    rw [hheight] at hi
    rw [hwidth] at hj ⊢
    have k4 := g4 i j (by omega) (by omega)
    have k3 := g3 j (r3.width - 1 - i) (by omega) (by omega)
    have k2 := g2 (r3.width - 1 - i) (r2.width - 1 - j) (by omega) (by omega)
    have k1 := g1 (r2.width - 1 - j) (r1.width - 1 - (r3.width - 1 - i)) (by omega) (by omega)
    have a1 : r1.width - 1 - (r3.width - 1 - i) = i := by omega
    have a2 : g.width - 1 - (r2.width - 1 - j) = j := by omega
    rw [a1, a2] at k1
    have key : r4.get ndebug i j = g.get ndebug i j := by rw [k4, k3, k2, a1, k1]
    rw [get_eq ndebug w4 (by omega) (by omega), get_eq ndebug hwf hi hj, hwidth] at key
    exact key
  have hr : r4 = g := by
    cases r4; cases g; simp_all
  rw [e1, Option.some_bind, e2, Option.some_bind, e3, Option.some_bind, e4, Option.some_bind,
    op_eq_spec w4 hwf, hr]
  simp

/-- Witness of C2 on the 2 x 3 example, assertions compiled in. -/
theorem rotated_four_times_witness :
    WF example_2x3 ∧ (((((rotated false example_2x3).bind (rotated false)).bind
      (rotated false)).bind (rotated false)).bind (fun r => op_eq r example_2x3)) = some true :=
  ⟨by decide, rotated_four_times false example_2x3 (by decide)⟩

/-- C3 (evaluation at a failing input): on the 1 x 2 array `10 20` the call
`get_sub_array(0, 0, 2, 1)` (sub_width = width, sub_height = height) does not
produce an array equal to the original.  The result is built with
`Array2D<T>(sub_width, sub_height)`, that is with height 2 and width 1: with
assertions compiled in the call stops at `sub_array_2d.get(0, 1)`, with
`NDEBUG` it returns a 2 x 1 array, which `operator==` reports different. -/
theorem sub_array_full_at_1x2 :
    get_sub_array false example_1x2 0 0 example_1x2.width example_1x2.height = none ∧
      get_sub_array true example_1x2 0 0 example_1x2.width example_1x2.height
        = some { height := 2, width := 1, data := [10, 20] } ∧
      ((get_sub_array true example_1x2 0 0 example_1x2.width example_1x2.height).bind
        (fun r => op_eq r example_1x2)) = some false := by
  refine ⟨by decide, by decide, by decide⟩

end Array2D

/-- C4: for every direction `d` in 0..3, `get_opposite_direction d` is `3 - d`,
is again in 0..3, and applying the function twice gives back `d`. -/
theorem opposite_direction_involution (d : Nat) (hd : d < 4) :
    get_opposite_direction d = 3 - d ∧ get_opposite_direction d < 4 ∧
      get_opposite_direction (get_opposite_direction d) = d := by
  simp only [get_opposite_direction, UNSIGNED_MOD]
  omega

/-- Witness of C4 at direction 2. -/
theorem opposite_direction_involution_witness :
    (2 : Nat) < 4 ∧ (get_opposite_direction 2 = 3 - 2 ∧ get_opposite_direction 2 < 4 ∧
      get_opposite_direction (get_opposite_direction 2) = 2) :=
  ⟨by decide, opposite_direction_involution 2 (by decide)⟩

namespace Array2D

variable {T : Type}

/-- C5 (evaluation at a failing input): on the 1 x 2 array `10 20` the call
`reflected()` does not return the 1 x 2 array `20 10`.  With assertions compiled
in it stops at `result.get(0, 1)`, the result having width 1; with `NDEBUG` it
returns an array of height 2 and width 1.  On an empty 0 x 3 array, where no
element is accessed, it returns an array of height 3 and width 0. -/
theorem reflected_at_1x2 :
    reflected false example_1x2 = none ∧
      reflected true example_1x2 = some { height := 2, width := 1, data := [20, 10] } ∧
      ∀ ndebug : Bool, reflected ndebug ({ height := 0, width := 3, data := [] } : Array2D Nat)
        = some { height := 3, width := 0, data := [] } := by
  refine ⟨by decide, by decide, ?_⟩
  intro ndebug
  cases ndebug <;> decide

/-- C6: for every array `g` of height `h` and width `w` satisfying the
invariant of the data model, `rotated()` returns an array of height `w` and
width `h` whose element at `(y, x)`, for `y < w` and `x < h`, is the element of
`g` at `(x, w - 1 - y)`.  The call returns also with assertions compiled in
(`ndebug = false`): no assertion fails and no index leaves a data vector. -/
theorem rotated_ccw [Inhabited T] (ndebug : Bool) (g : Array2D T) (hwf : WF g) :
    ∃ r, rotated ndebug g = some r ∧ r.height = g.width ∧ r.width = g.height ∧
      ∀ y x, y < g.width → x < g.height →
        ∃ v, r.get ndebug y x = some v ∧ g.get ndebug x (g.width - 1 - y) = some v := by
  obtain ⟨r, e, _, hh, hw, hg⟩ := rotated_spec ndebug g hwf
  refine ⟨r, e, hh, hw, ?_⟩
  intro y x hy hx
  obtain ⟨v, hv⟩ := Option.isSome_iff_exists.mp
    (get_isSome ndebug hwf hx (show g.width - 1 - y < g.width by omega))
  exact ⟨v, by rw [hg y x hy hx, hv], hv⟩

/-- Witness of C6 on the 2 x 3 example, assertions compiled in. -/
theorem rotated_ccw_witness :
    WF example_2x3 ∧ ∃ r, rotated false example_2x3 = some r ∧
      r.height = example_2x3.width ∧ r.width = example_2x3.height ∧
      ∀ y x, y < example_2x3.width → x < example_2x3.height →
        ∃ v, r.get false y x = some v ∧
          example_2x3.get false x (example_2x3.width - 1 - y) = some v :=
  ⟨by decide, rotated_ccw false example_2x3 (by decide)⟩

/-- C7 (evaluation at a failing input): on the 2 x 3 example the call
`get_sub_array(1, 2, 2, 1)` (sub_width 2, sub_height 1) does not return the
1 x 2 array `6 4`.  With assertions compiled in it stops at
`sub_array_2d.get(0, 1)`, the result having width 1; with `NDEBUG` it returns
an array of height 2 and width 1. -/
theorem sub_array_at_2x3 :
    get_sub_array false example_2x3 1 2 2 1 = none ∧
      get_sub_array true example_2x3 1 2 2 1
        = some { height := 2, width := 1, data := [6, 4] } := by
  refine ⟨by decide, by decide⟩

/-- C8: for arrays `a` and `b` satisfying the invariant of the data model,
`a == b` returns, and it returns true exactly when the heights are equal, the
widths are equal and `a.get(i, j)` equals `b.get(i, j)` at every position of
`a`; `a != b` returns the negation. -/
theorem op_eq_iff [DecidableEq T] (ndebug : Bool) (a b : Array2D T) (ha : WF a) (hb : WF b) :
    ∃ r, op_eq a b = some r ∧ op_ne a b = some (!r) ∧
      (r = true ↔ (a.height = b.height ∧ a.width = b.width ∧
        ∀ i j, i < a.height → j < a.width → a.get ndebug i j = b.get ndebug i j)) := by
  refine ⟨decide (a = b), op_eq_spec ha hb, by simp [op_ne, op_eq_spec ha hb], ?_⟩
  rw [decide_eq_true_iff]
  constructor
  · rintro rfl
    exact ⟨rfl, rfl, fun _ _ _ _ => rfl⟩
  · rintro ⟨hh, hw, hget⟩
    have hdata : a.data = b.data := by
      apply data_ext ha hb hh hw
      intro i j hi hj
      have := hget i j hi hj
      rw [get_eq ndebug ha hi hj, get_eq ndebug hb (by omega) (by omega), ← hw] at this
      exact this
    cases a; cases b; simp_all

/-- Witness of C8 on two different 2 x 3 arrays. -/
theorem op_eq_iff_witness :
    WF example_2x3 ∧ WF (mk_value 2 3 (7 : Nat)) ∧
      ∃ r, op_eq example_2x3 (mk_value 2 3 7) = some r ∧
        op_ne example_2x3 (mk_value 2 3 7) = some (!r) ∧
        (r = true ↔ (example_2x3.height = (mk_value 2 3 (7 : Nat)).height ∧
          example_2x3.width = (mk_value 2 3 (7 : Nat)).width ∧
          ∀ i j, i < example_2x3.height → j < example_2x3.width →
            example_2x3.get false i j = (mk_value 2 3 (7 : Nat)).get false i j)) :=
  ⟨by decide, by decide, op_eq_iff false example_2x3 (mk_value 2 3 7) (by decide) (by decide)⟩

/-- C9: for every array `a` satisfying the invariant of the data model, the
hash computed by the code is the fold described by the specification: the
combiner `s XOR (hash_T(e) + 0x9e3779b9 + (s << 6) + (s >> 2))` modulo `2 ^ 64`,
applied to the elements in row-major order, started from `height * width`. -/
theorem hash_is_row_major_fold (hash_T : T → Nat) (ndebug : Bool) (a : Array2D T)
    (hwf : WF a) : spec_hash hash_T ndebug a = some (hash hash_T a) :=
  spec_hash_eq hash_T ndebug a hwf

/-- Witness of C9 on the 2 x 2 example with the identity as element hash. -/
theorem hash_is_row_major_fold_witness :
    WF example_2x2 ∧ spec_hash id false example_2x2 = some (hash id example_2x2) :=
  ⟨by decide, hash_is_row_major_fold id false example_2x2 (by decide)⟩

/-- C10: for every array `a` of height `h` and width `w` satisfying the
invariant of the data model, `get(i, j)` reads `data[i * w + j]`, an index
inside `data`; the map from in-bounds pairs to indices is injective and reaches
every index below `h * w`; and an assignment through `get(i, j)` returns,
keeps the dimensions, and changes what `get` reads at `(i, j)` only. -/
theorem get_row_major [DecidableEq T] (ndebug : Bool) (a : Array2D T) (hwf : WF a) :
    (∀ i j, i < a.height → j < a.width →
      a.index i j = i * a.width + j ∧ i * a.width + j < a.data.length ∧
        a.get ndebug i j = a.data[i * a.width + j]?) ∧
    (∀ i j k l, i < a.height → j < a.width → k < a.height → l < a.width →
      i * a.width + j = k * a.width + l → i = k ∧ j = l) ∧
    (∀ n, n < a.height * a.width →
      ∃ i j, i < a.height ∧ j < a.width ∧ i * a.width + j = n) ∧
    (∀ i j v, i < a.height → j < a.width →
      ∃ b, a.set ndebug i j v = some b ∧ b.height = a.height ∧ b.width = a.width ∧
        ∀ k l, k < a.height → l < a.width →
          b.get ndebug k l = if k = i ∧ l = j then some v else a.get ndebug k l) := by
  refine ⟨?_, ?_, ?_, ?_⟩
  · intro i j hi hj
    have h1 := cell_lt hi hj
    have h2 := hwf.2.2.2
    refine ⟨by rw [index_eq hwf hi hj, Nat.add_comm], by omega, ?_⟩
    rw [get_eq ndebug hwf hi hj, Nat.add_comm]
  · intro i j k l _ hj _ hl h
    exact cell_inj hj hl (by omega)
  · intro n hn
    obtain ⟨h1, h2, h3⟩ := cell_surj hn
    exact ⟨n / a.width, n % a.width, h1, h2, by omega⟩
  · intro i j v hi hj
    have hlt : j + i * a.width < a.data.length := by
      rw [hwf.2.2.2]; exact cell_lt hi hj
    refine ⟨_, set_eq ndebug hwf hi hj v, rfl, rfl, ?_⟩
    intro k l hk hl
    have hwfb : WF ({ a with data := a.data.set (j + i * a.width) v } : Array2D T) :=
      @WF.of_sameShape T _ a ⟨rfl, rfl, by simp⟩ hwf
    rw [get_eq ndebug hwfb hk hl, get_eq ndebug hwf hk hl]
    simp only [List.getElem?_set]
    by_cases hc : j + i * a.width = l + k * a.width
    · obtain ⟨e1, e2⟩ := cell_inj hj hl hc
      subst e1 e2
      simp [hlt]
    · have hne : ¬ (k = i ∧ l = j) := by
        rintro ⟨rfl, rfl⟩; exact hc rfl
      rw [if_neg hc, if_neg hne]

/-- Witness of C10 on the 2 x 3 example, assertions compiled in. -/
theorem get_row_major_witness :
    WF example_2x3 ∧
      ∀ i j, i < example_2x3.height → j < example_2x3.width →
        example_2x3.index i j = i * example_2x3.width + j ∧
          i * example_2x3.width + j < example_2x3.data.length ∧
          example_2x3.get false i j = example_2x3.data[i * example_2x3.width + j]? :=
  ⟨by decide, (get_row_major false example_2x3 (by decide)).1⟩

end Array2D

namespace Array3D
variable {T : Type}

/-- An in-bounds triple has its index below `h * w * d`. -/
theorem cell3_lt {h w d i j k : Nat} (hi : i < h) (hj : j < w) (hk : k < d) :
    i * w * d + j * d + k < h * w * d := by
  have h1 : j + i * w < h * w := Array2D.cell_lt hi hj
  have h2 : k + (j + i * w) * d < h * w * d := Array2D.cell_lt h1 hk
  have h3 : (j + i * w) * d = i * w * d + j * d := by ring
  omega

/-- Two in-bounds triples with the same index are the same triple. -/
theorem cell3_inj {w d i j k i' j' k' : Nat} (hj : j < w) (hk : k < d) (hj' : j' < w)
    (hk' : k' < d) (h : i * w * d + j * d + k = i' * w * d + j' * d + k') :
    i = i' ∧ j = j' ∧ k = k' := by
  have h3 : (j + i * w) * d = i * w * d + j * d := by ring
  have h4 : (j' + i' * w) * d = i' * w * d + j' * d := by ring
  obtain ⟨e1, e2⟩ := Array2D.cell_inj hk hk'
    (show k + (j + i * w) * d = k' + (j' + i' * w) * d by omega)
  obtain ⟨e3, e4⟩ := Array2D.cell_inj hj hj' e1
  exact ⟨e3, e4, e2⟩

/-- Every index below `h * w * d` is the index of an in-bounds triple. -/
theorem cell3_surj {h w d n : Nat} (hn : n < h * w * d) :
    ∃ i j k, i < h ∧ j < w ∧ k < d ∧ i * w * d + j * d + k = n := by
  obtain ⟨h1, h2, h3⟩ := Array2D.cell_surj hn
  obtain ⟨h4, h5, h6⟩ := Array2D.cell_surj h1
  refine ⟨n / d / w, n / d % w, n % d, h4, h5, h2, ?_⟩
  have h7 : (n / d % w + n / d / w * w) * d = n / d / w * w * d + n / d % w * d := by ring
  rw [h6] at h7
  omega

/-- Under the invariant the index computed by `get` does not wrap around. -/
theorem index3_eq {a : Array3D T} (hwf : WF a) {i j k : Nat} (hi : i < a.height)
    (hj : j < a.width) (hk : k < a.depth) :
    a.index i j k = i * a.width * a.depth + j * a.depth + k := by
  obtain ⟨_, _, _, h4, h5⟩ := hwf
  have h6 := cell3_lt hi hj hk
  have h7 : i * a.width ≤ i * a.width * a.depth :=
    Nat.le_mul_of_pos_right _ (by omega)
  unfold index size_add size_mul
  rw [Nat.mod_eq_of_lt (a := i * a.width) (by omega),
    Nat.mod_eq_of_lt (a := i * a.width * a.depth) (by omega),
    Nat.mod_eq_of_lt (a := j * a.depth) (by omega),
    Nat.mod_eq_of_lt (a := i * a.width * a.depth + j * a.depth) (by omega),
    Nat.mod_eq_of_lt (by omega)]

/-- C11: for every three-dimensional array satisfying the invariant of the
data model, `get(i, j, k)` (both overloads) reads `data[i*w*d + j*d + k]`, an
index inside `data`; two in-bounds triples with the same index are equal; and
every index below `h * w * d` is the index of an in-bounds triple. -/
theorem array3D_get_layout (ndebug : Bool) (a : Array3D T) (hwf : WF a) :
    (∀ i j k, i < a.height → j < a.width → k < a.depth →
      a.index i j k = i * a.width * a.depth + j * a.depth + k ∧
        i * a.width * a.depth + j * a.depth + k < a.data.length ∧
        a.get ndebug i j k = a.data[i * a.width * a.depth + j * a.depth + k]? ∧
        a.get_mut i j k = a.data[i * a.width * a.depth + j * a.depth + k]?) ∧
    (∀ i j k l m n, i < a.height → j < a.width → k < a.depth →
      l < a.height → m < a.width → n < a.depth →
      i * a.width * a.depth + j * a.depth + k = l * a.width * a.depth + m * a.depth + n →
      i = l ∧ j = m ∧ k = n) ∧
    (∀ n, n < a.height * a.width * a.depth →
      ∃ i j k, i < a.height ∧ j < a.width ∧ k < a.depth ∧
        i * a.width * a.depth + j * a.depth + k = n) := by
  refine ⟨?_, ?_, ?_⟩
  · intro i j k hi hj hk
    have h1 := cell3_lt hi hj hk
    have h2 := hwf.2.2.2.2
    refine ⟨index3_eq hwf hi hj hk, by omega, ?_, ?_⟩
    · simp [get, assert_ok, hi, hj, hk, index3_eq hwf hi hj hk]
    · simp [get_mut, index3_eq hwf hi hj hk]
  · intro i j k l m n _ hj hk _ hm hn h
    exact cell3_inj hj hk hm hn h
  · intro n hn
    exact cell3_surj hn

/-- Witness of C11 on the 2 x 2 x 3 example, assertions compiled in. -/
theorem array3D_get_layout_witness :
    WF example_2x2x3 ∧
      ∀ n, n < example_2x2x3.height * example_2x2x3.width * example_2x2x3.depth →
        ∃ i j k, i < example_2x2x3.height ∧ j < example_2x2x3.width ∧
          k < example_2x2x3.depth ∧
          i * example_2x2x3.width * example_2x2x3.depth + j * example_2x2x3.depth + k = n :=
  ⟨by decide, (array3D_get_layout false example_2x2x3 (by decide)).2.2⟩

end Array3D

namespace Array2D

variable {T : Type}

/-- The loop of `operator==` with the built-in inequality is `eq_loop`. -/
theorem eq_loop_with_decide [DecidableEq T] (this_data a_data : List T) (l : List Nat) :
    eq_loop_with (fun u v => decide (u ≠ v)) this_data a_data l = eq_loop this_data a_data l := by
  induction l with
  | nil => rfl
  | cons i rest ih =>
    simp only [eq_loop_with, eq_loop, ih]
    rcases a_data[i]? with _ | u <;> rcases this_data[i]? with _ | v <;> simp

/-- The method `operator==` with the built-in inequality is `op_eq`. -/
theorem op_eq_with_decide [DecidableEq T] (self a : Array2D T) :
    op_eq_with (fun u v => decide (u ≠ v)) self a = op_eq self a := by
  simp only [op_eq_with, op_eq, eq_loop_with_decide]

/-- When the loop of `operator==` returns true, the vectors agree, up to
`ne_T`, at every visited index. -/
theorem eq_loop_with_true (ne_T : T → T → Bool) (this_data a_data : List T) :
    ∀ l : List Nat, eq_loop_with ne_T this_data a_data l = some true →
      ∀ i ∈ l, ∃ u v, a_data[i]? = some u ∧ this_data[i]? = some v ∧ ne_T u v = false := by
  intro l
  induction l with
  | nil => intro _ i hi; simp at hi
  | cons k rest ih =>
    intro h i hi
    simp only [eq_loop_with] at h
    rcases hu : a_data[k]? with _ | u
    · simp [hu] at h
    · rcases hv : this_data[k]? with _ | v
      · simp [hu, hv] at h
      · simp only [hu, hv] at h
        by_cases hne : ne_T u v = true
        · simp [hne] at h
        · simp only [hne, Bool.false_eq_true, if_false] at h
          rcases List.mem_cons.mp hi with rfl | hmem
          · exact ⟨u, v, hu, hv, by simpa using hne⟩
          · exact ih h i hmem

/-- The hash loop gives the same result on two vectors of the same length whose
elements have the same hashes. -/
theorem foldl_hash_congr (hash_T : T → Nat) :
    ∀ (l1 l2 : List T) (s : Nat), l1.length = l2.length →
      (∀ (i : Nat) u v, l1[i]? = some u → l2[i]? = some v → hash_T u = hash_T v) →
      l1.foldl (hash_step hash_T) s = l2.foldl (hash_step hash_T) s := by
  intro l1
  induction l1 with
  | nil =>
    intro l2 s hlen _
    cases l2 with
    | nil => rfl
    | cons _ _ => simp at hlen
  | cons x xs ih =>
    intro l2 s hlen h
    cases l2 with
    | nil => simp at hlen
    | cons y ys =>
      have hxy : hash_T x = hash_T y := h 0 x y (by simp) (by simp)
      have hstep : hash_step hash_T s x = hash_step hash_T s y := by
        simp only [hash_step, hxy]
      simp only [List.foldl_cons, hstep]
      apply ih ys _ (by simpa using hlen)
      intro i u v hu hv
      exact h (i + 1) u v (by simpa using hu) (by simpa using hv)

/-- C18: for an element type whose hash respects its equality (elements that
`operator!=` does not tell apart have the same hash), and arrays `a`, `b`
satisfying the invariant of the data model, `a == b` implies
`hash(a) == hash(b)`. -/
theorem hash_respects_op_eq (ne_T : T → T → Bool) (hash_T : T → Nat)
    (hresp : ∀ u v, ne_T u v = false → hash_T u = hash_T v)
    (a b : Array2D T) (ha : WF a) (hb : WF b)
    (heq : op_eq_with ne_T a b = some true) : hash hash_T a = hash hash_T b := by
  unfold op_eq_with at heq
  by_cases hd : a.height ≠ b.height ∨ a.width ≠ b.width
  · rw [if_pos hd] at heq
    simp at heq
  · rw [if_neg hd] at heq
    have hh : a.height = b.height := by
      by_contra h; exact hd (Or.inl h)
    have hw : a.width = b.width := by
      by_contra h; exact hd (Or.inr h)
    have hlen : a.data.length = b.data.length := by
      rw [ha.2.2.2, hb.2.2.2, hh, hw]
    have hall := eq_loop_with_true ne_T a.data b.data _ heq
    unfold hash
    rw [hlen]
    apply foldl_hash_congr hash_T a.data b.data _ hlen
    intro i u v hu hv
    have hi : i < a.data.length := by
      by_contra hge
      rw [List.getElem?_eq_none (by omega)] at hu
      exact Option.noConfusion hu
    obtain ⟨u', v', h1, h2, h3⟩ := hall i (List.mem_range.mpr hi)
    rw [hv] at h1
    rw [hu] at h2
    cases h1; cases h2
    exact (hresp _ _ h3).symm

/-- Witness of C18: the 2 x 2 example against itself, integers compared by
`!=` and hashed by the identity. -/
theorem hash_respects_op_eq_witness :
    (∀ u v : Nat, (u != v) = false → id u = id v) ∧ WF example_2x2 ∧
      op_eq_with (fun u v : Nat => u != v) example_2x2 example_2x2 = some true ∧
      hash id example_2x2 = hash id example_2x2 :=
  ⟨fun u v h => by simpa using h, by decide, by decide,
    hash_respects_op_eq (fun u v : Nat => u != v) id (fun u v h => by simpa using h)
      example_2x2 example_2x2 (by decide) (by decide) (by decide)⟩

end Array2D

/-- C15: `to_symmetry` returns the enumerators `X`, `T`, `I`, `L`, `backslash`,
`P` for the tokens `X`, `T`, `I`, `L`, `\`, `P`; the six enumerators are
pairwise different; it returns a value for no other string, and throws for
every other string, among them the empty string and the lower-case tokens. -/
theorem to_symmetry_tokens (s : String) :
    to_symmetry "X" = .ok Symmetry.X ∧ to_symmetry "T" = .ok Symmetry.T ∧
    to_symmetry "I" = .ok Symmetry.I ∧ to_symmetry "L" = .ok Symmetry.L ∧
    to_symmetry "\\" = .ok Symmetry.backslash ∧ to_symmetry "P" = .ok Symmetry.P ∧
    [Symmetry.X, Symmetry.T, Symmetry.I, Symmetry.L, Symmetry.backslash, Symmetry.P].Nodup ∧
    ((∃ v, to_symmetry s = .ok v) ↔ s ∈ ["X", "T", "I", "L", "\\", "P"]) ∧
    ((∃ e, to_symmetry s = .error e) ↔ s ∉ ["X", "T", "I", "L", "\\", "P"]) ∧
    (∀ t ∈ ["", "x", "t", "i", "l", "p", "/", "XX", " X"],
      to_symmetry t = .error (t ++ "is an invalid Symmetry")) := by
  refine ⟨by decide, by decide, by decide, by decide, by decide, by decide, by decide,
    ?_, ?_, by decide⟩
  · unfold to_symmetry
    simp only [List.mem_cons, List.mem_singleton, List.not_mem_nil, or_false]
    split_ifs <;> simp_all
  · unfold to_symmetry
    simp only [List.mem_cons, List.mem_singleton, List.not_mem_nil, or_false]
    split_ifs <;> simp_all

/-- C19: for every direction `d` in 0..3 the offset of the opposite direction is
the negated offset, so a step in direction `d` followed by a step in the
opposite direction returns to the starting cell; the offsets of the directions
0, 1, 2, 3 are `(0,-1)`, `(-1,0)`, `(1,0)`, `(0,1)`, pairwise different unit
steps. -/
theorem opposite_direction_offsets (d : Nat) (hd : d < 4) :
    (∃ dx dy, directions_x[d]? = some dx ∧ directions_y[d]? = some dy ∧
      directions_x[get_opposite_direction d]? = some (-dx) ∧
      directions_y[get_opposite_direction d]? = some (-dy) ∧
      (dx.natAbs + dy.natAbs = 1) ∧
      ∀ x y : Int, (x + dx + -dx, y + dy + -dy) = (x, y)) ∧
    List.zip directions_x directions_y = [(0, -1), (-1, 0), (1, 0), (0, 1)] ∧
    (List.zip directions_x directions_y).Nodup := by
  refine ⟨?_, by decide, by decide⟩
  have hstep : ∀ (dx dy x y : Int), (x + dx + -dx, y + dy + -dy) = (x, y) := by
    intro dx dy x y
    simp
  interval_cases d
  · exact ⟨0, -1, by decide, by decide, by decide, by decide, by decide, hstep _ _⟩
  · exact ⟨-1, 0, by decide, by decide, by decide, by decide, by decide, hstep _ _⟩
  · exact ⟨1, 0, by decide, by decide, by decide, by decide, by decide, hstep _ _⟩
  · exact ⟨0, 1, by decide, by decide, by decide, by decide, by decide, hstep _ _⟩

/-- Witness of C19 at direction 1. -/
theorem opposite_direction_offsets_witness :
    (1 : Nat) < 4 ∧ ((∃ dx dy, directions_x[1]? = some dx ∧ directions_y[1]? = some dy ∧
      directions_x[get_opposite_direction 1]? = some (-dx) ∧
      directions_y[get_opposite_direction 1]? = some (-dy) ∧
      (dx.natAbs + dy.natAbs = 1) ∧
      ∀ x y : Int, (x + dx + -dx, y + dy + -dy) = (x, y)) ∧
    List.zip directions_x directions_y = [(0, -1), (-1, 0), (1, 0), (0, 1)] ∧
    (List.zip directions_x directions_y).Nodup) :=
  ⟨by decide, opposite_direction_offsets 1 (by decide)⟩

/-- The comparison `success != NULL_ARR` on an array satisfying the invariant. -/
theorem op_ne_null {T : Type} [Inhabited T] [DecidableEq T] (a : Array2D T)
    (hwf : Array2D.WF a) :
    Array2D.op_ne a NULL_ARR = some (decide (a ≠ NULL_ARR)) := by
  have hnull : Array2D.WF (NULL_ARR : Array2D T) := by
    refine ⟨?_, ?_, ?_, ?_⟩ <;>
      simp [NULL_ARR, Array2D.mk_default, size_mul, SIZE_T_MOD]
  simp [Array2D.op_ne, Array2D.op_eq_spec hwf hnull]

/-- The loop of attempts from any log: it ends, either right after the first
run whose result differs from `NULL_ARR`, that result being the only one
written, or after `n` runs that all returned `NULL_ARR`, nothing being
written. -/
theorem attempt_loop_spec {T : Type} [Inhabited T] [DecidableEq T] (solver : Nat → Array2D T)
    (hwf : ∀ i, Array2D.WF (solver i)) (path : String) :
    ∀ (n : Nat) (log : RunLog T), ∃ out, attempt_loop solver path n log = some out ∧
      ((∃ k, k < n ∧ (∀ j, j < k → solver (log.runs + j) = NULL_ARR) ∧
          solver (log.runs + k) ≠ NULL_ARR ∧ out.runs = log.runs + k + 1 ∧
          out.written = log.written ++ [(path, solver (log.runs + k))]) ∨
        ((∀ j, j < n → solver (log.runs + j) = NULL_ARR) ∧ out.runs = log.runs + n ∧
          out.written = log.written)) := by
  intro n
  induction n with
  | zero =>
    intro log
    exact ⟨log, rfl, Or.inr ⟨fun j hj => by omega, rfl, rfl⟩⟩
  | succ n ih =>
    intro log
    by_cases hs : solver log.runs = NULL_ARR
    · obtain ⟨out, hout, hcase⟩ := ih { runs := log.runs + 1, written := log.written }
      refine ⟨out, ?_, ?_⟩
      · simp only [attempt_loop, op_ne_null _ (hwf _), hs]
        simpa using hout
      · rcases hcase with ⟨k, hk, hfail, hok, hruns, hwr⟩ | ⟨hfail, hruns, hwr⟩
        · simp only at hfail hok hruns hwr
          refine Or.inl ⟨k + 1, by omega, ?_, ?_, by omega, ?_⟩
          · intro j hj
            rcases Nat.eq_zero_or_pos j with rfl | hpos
            · simpa using hs
            · have := hfail (j - 1) (by omega)
              rwa [show log.runs + 1 + (j - 1) = log.runs + j by omega] at this
          · rwa [show log.runs + 1 + k = log.runs + (k + 1) by omega] at hok
          · rw [hwr, show log.runs + 1 + k = log.runs + (k + 1) by omega]
        · simp only at hfail hruns hwr
          refine Or.inr ⟨?_, by omega, hwr⟩
          intro j hj
          rcases Nat.eq_zero_or_pos j with rfl | hpos
          · simpa using hs
          · have := hfail (j - 1) (by omega)
            rwa [show log.runs + 1 + (j - 1) = log.runs + j by omega] at this
    · refine ⟨{ runs := log.runs + 1, written := log.written ++ [(path, solver log.runs)] },
        ?_, Or.inl ⟨0, by omega, fun j hj => by omega, by simpa using hs, rfl, rfl⟩⟩
      simp [attempt_loop, op_ne_null _ (hwf _), hs]

/-- The loop of attempts makes at most `n` runs and at most one write. -/
theorem attempt_loop_bounds {T : Type} [Inhabited T] [DecidableEq T] (solver : Nat → Array2D T)
    (hwf : ∀ i, Array2D.WF (solver i)) (path : String) (n : Nat) (log : RunLog T) :
    ∃ out, attempt_loop solver path n log = some out ∧ out.runs ≤ log.runs + n ∧
      out.written.length ≤ log.written.length + 1 := by
  obtain ⟨out, hout, hcase⟩ := attempt_loop_spec solver hwf path n log
  refine ⟨out, hout, ?_⟩
  rcases hcase with ⟨k, hk, _, _, hruns, hwr⟩ | ⟨_, hruns, hwr⟩
  · rw [hruns, hwr]; simp; omega
  · rw [hruns, hwr]; simp

/-- The loop over the screenshots: at most ten runs and one write for each. -/
theorem overlapping_bounds {T : Type} [Inhabited T] [DecidableEq T] (solver : Nat → Array2D T)
    (hwf : ∀ i, Array2D.WF (solver i)) (name : String) :
    ∀ screenshots : Nat, ∃ out, overlapping_attempts solver name screenshots = some out ∧
      out.runs ≤ 10 * screenshots ∧ out.written.length ≤ screenshots := by
  intro screenshots
  induction screenshots with
  | zero => exact ⟨{ runs := 0, written := [] }, rfl, by simp, by simp⟩
  | succ s ih =>
    obtain ⟨mid, hmid, h1, h2⟩ := ih
    obtain ⟨out, hout, h3, h4⟩ := attempt_loop_bounds solver hwf
      ("results/" ++ name ++ toString s ++ ".png") 10 mid
    refine ⟨out, ?_, by omega, by omega⟩
    unfold overlapping_attempts at hmid ⊢
    rw [List.range_succ, List.foldlM_append, hmid]
    simpa using hout


/-- C16 (counterexample): `read_overlapping_instance` with `screenshots = 2`.
When every run returns `Array2D{0, 0}` the solver is run 20 times for the
one instance; when every run returns a 1 x 1 grid the solver is run a second
time after the first successful run, and two images are written. -/
theorem overlapping_attempts_counterexample :
    overlapping_attempts (fun _ => (NULL_ARR : Array2D Nat)) "s" 2
        = some { runs := 20, written := [] } ∧
      ¬ (20 ≤ 10) ∧
      overlapping_attempts (fun _ => ({ height := 1, width := 1, data := [5] } : Array2D Nat))
        "s" 2
        = some { runs := 2, written :=
            [("results/s0.png", { height := 1, width := 1, data := [5] }),
             ("results/s1.png", { height := 1, width := 1, data := [5] })] } := by
  refine ⟨by decide, by decide, by decide⟩

/-- C16 (amended): whatever the solver returns (arrays satisfying the invariant
of the data model), `read_simpletiled_instance` runs it at most 10 times, stops
right after the first run whose result differs from `Array2D{0, 0}`, writes
that result only, and writes nothing when all 10 runs return `Array2D{0, 0}`.
In `read_overlapping_instance` the same holds for the loop of each screenshot
index, started from the log of the indices before it; the instance as a whole
makes at most `10 * screenshots` runs and at most `screenshots` writes. -/
theorem attempts_per_loop {T : Type} [Inhabited T] [DecidableEq T] (solver : Nat → Array2D T)
    (hwf : ∀ i, Array2D.WF (solver i)) (name subset : String) (screenshots : Nat) :
    (∃ out, simpletiled_attempts solver name subset = some out ∧ out.runs ≤ 10 ∧
      ((∃ k, k < 10 ∧ (∀ j, j < k → solver j = NULL_ARR) ∧ solver k ≠ NULL_ARR ∧
          out.runs = k + 1 ∧
          out.written = [("results/" ++ name ++ "_" ++ subset ++ ".png", solver k)]) ∨
        ((∀ j, j < 10 → solver j = NULL_ARR) ∧ out.runs = 10 ∧ out.written = []))) ∧
    (∀ (path : String) (log : RunLog T), ∃ out,
      attempt_loop solver path 10 log = some out ∧ out.runs ≤ log.runs + 10 ∧
      ((∃ k, k < 10 ∧ (∀ j, j < k → solver (log.runs + j) = NULL_ARR) ∧
          solver (log.runs + k) ≠ NULL_ARR ∧ out.runs = log.runs + k + 1 ∧
          out.written = log.written ++ [(path, solver (log.runs + k))]) ∨
        ((∀ j, j < 10 → solver (log.runs + j) = NULL_ARR) ∧ out.runs = log.runs + 10 ∧
          out.written = log.written))) ∧
    (overlapping_attempts solver name (screenshots + 1) =
      (overlapping_attempts solver name screenshots).bind (fun log =>
        attempt_loop solver ("results/" ++ name ++ toString screenshots ++ ".png") 10 log)) ∧
    (∃ out, overlapping_attempts solver name screenshots = some out ∧
      out.runs ≤ 10 * screenshots ∧ out.written.length ≤ screenshots) := by
  refine ⟨?_, ?_, ?_, overlapping_bounds solver hwf name screenshots⟩
  · obtain ⟨out, hout, hcase⟩ := attempt_loop_spec solver hwf
      ("results/" ++ name ++ "_" ++ subset ++ ".png") 10 { runs := 0, written := [] }
    obtain ⟨out2, hout2, hb, _⟩ := attempt_loop_bounds solver hwf
      ("results/" ++ name ++ "_" ++ subset ++ ".png") 10 { runs := 0, written := [] }
    rw [hout] at hout2
    cases hout2
    refine ⟨out, hout, by simpa using hb, ?_⟩
    simpa using hcase
  · intro path log
    obtain ⟨out, hout, hcase⟩ := attempt_loop_spec solver hwf path 10 log
    obtain ⟨out2, hout2, hb, _⟩ := attempt_loop_bounds solver hwf path 10 log
    rw [hout] at hout2
    cases hout2
    exact ⟨out, hout, hb, hcase⟩
  · unfold overlapping_attempts
    rw [List.range_succ, List.foldlM_append]
    simp

/-- Witness of C16 (amended): a solver that fails three times and succeeds from
then on, with three screenshots. -/
theorem attempts_per_loop_witness :
    (∀ i : Nat, Array2D.WF
      (if i < 3 then (NULL_ARR : Array2D Nat) else { height := 1, width := 1, data := [5] })) ∧
    ∃ out, overlapping_attempts
        (fun i : Nat => if i < 3 then (NULL_ARR : Array2D Nat)
          else { height := 1, width := 1, data := [5] }) "s" 3 = some out ∧
      out.runs ≤ 10 * 3 ∧ out.written.length ≤ 3 :=
  ⟨fun i => by split <;> decide,
    (attempts_per_loop
      (fun i : Nat => if i < 3 then (NULL_ARR : Array2D Nat)
        else { height := 1, width := 1, data := [5] })
      (fun i => by dsimp only; split <;> decide) "s" "t" 3).2.2.2⟩

/-- Looking up a key after an entry was appended. -/
theorem map_find_append {V : Type} (m : StringMap V) (k : String) (v : V) (key : String) :
    map_find (m ++ [(k, v)]) key =
      match map_find m key with
      | some w => some w
      | none => if k = key then some v else none := by
  induction m with
  | nil => simp [map_find]
  | cons e rest ih =>
    obtain ⟨k', v'⟩ := e
    simp only [List.cons_append, map_find]
    by_cases h : k' = key
    · simp [h]
    · simp [h, ih]

/-- An `unsigned` survives the conversion to `int` and back. -/
theorem int_to_unsigned_to_int (u : Nat) (hu : u < UNSIGNED_MOD) :
    int_to_unsigned (unsigned_to_int u) = u := by
  simp only [UNSIGNED_MOD] at hu
  simp only [int_to_unsigned, unsigned_to_int, UNSIGNED_MOD]
  split <;> omega

/-- The numbering loop over `pre ++ rest`, started from the state reached
after `pre`. -/
theorem number_tiles_invariant {V : Type} :
    ∀ (rest pre : StringMap V) (st : TileIds V),
      pre.length + rest.length ≤ UNSIGNED_MOD →
      st.id = pre.length % UNSIGNED_MOD → st.tiles = pre.map Prod.snd →
      (∀ key, map_find st.tiles_id key =
        if key ∈ pre.map Prod.fst then some ((pre.map Prod.fst).indexOf key) else none) →
      let out := rest.foldl (fun st tile =>
        ({ tiles_id := map_insert st.tiles_id tile.1 st.id,
           tiles := st.tiles ++ [tile.2],
           id := (st.id + 1) % UNSIGNED_MOD } : TileIds V)) st
      out.tiles = (pre ++ rest).map Prod.snd ∧
      ∀ key, map_find out.tiles_id key =
        if key ∈ (pre ++ rest).map Prod.fst then
          some (((pre ++ rest).map Prod.fst).indexOf key) else none := by
  intro rest
  induction rest with
  | nil =>
    intro pre st _ _ htiles hfind
    rw [List.append_nil]
    exact ⟨htiles, hfind⟩
  | cons tile rest ih =>
    intro pre st hlen hid htiles hfind
    have hpre : pre.length < UNSIGNED_MOD := by
      simp only [List.length_cons] at hlen; omega
    have hid' : st.id = pre.length := by rw [hid, Nat.mod_eq_of_lt hpre]
    have := ih (pre ++ [tile])
      { tiles_id := map_insert st.tiles_id tile.1 st.id,
        tiles := st.tiles ++ [tile.2],
        id := (st.id + 1) % UNSIGNED_MOD }
      (by simp only [List.length_append, List.length_cons, List.length_nil] at hlen ⊢; omega)
      (by simp [hid'])
      (by simp [htiles])
      (by
        intro key
        simp only [map_insert]
        by_cases hin : tile.1 ∈ pre.map Prod.fst
        · have h1 : (map_find st.tiles_id tile.1).isSome = true := by
            rw [hfind, if_pos hin]; rfl
          rw [if_pos h1, hfind]
          by_cases hk : key ∈ pre.map Prod.fst
          · have hk' : key ∈ (pre ++ [tile]).map Prod.fst := by
              simp only [List.map_append, List.mem_append]; exact Or.inl hk
            rw [if_pos hk, if_pos hk', List.map_append, List.indexOf_append_of_mem hk]
          · have hne : key ≠ tile.1 := by rintro rfl; exact hk hin
            have hk' : key ∉ (pre ++ [tile]).map Prod.fst := by
              simp only [List.map_append, List.mem_append, List.map_cons, List.map_nil,
                List.mem_singleton]
              rintro (h | h)
              · exact hk h
              · exact hne h
            rw [if_neg hk, if_neg hk']
        · have h1 : ¬ (map_find st.tiles_id tile.1).isSome = true := by
            rw [hfind, if_neg hin]; simp
          rw [if_neg h1, map_find_append, hfind]
          by_cases hk : key ∈ pre.map Prod.fst
          · have hk' : key ∈ (pre ++ [tile]).map Prod.fst := by
              simp only [List.map_append, List.mem_append]; exact Or.inl hk
            rw [if_pos hk, if_pos hk', List.map_append, List.indexOf_append_of_mem hk]
          · rw [if_neg hk]
            by_cases he : tile.1 = key
            · subst he
              have hk' : tile.1 ∈ (pre ++ [tile]).map Prod.fst := by simp
              rw [if_pos hk', List.map_append, List.indexOf_append_of_not_mem hk]
              simp [hid']
            · have hk' : key ∉ (pre ++ [tile]).map Prod.fst := by
                simp only [List.map_append, List.mem_append, List.map_cons, List.map_nil,
                  List.mem_singleton]
                rintro (h | h)
                · exact hk h
                · exact he h.symm
              rw [if_neg hk']
              simp [he])
    rw [show pre ++ [tile] ++ rest = pre ++ tile :: rest by simp] at this
    exact this

/-- The numbering loop: the tiles in iteration order, each name mapped to its
position. -/
theorem number_tiles_spec {V : Type} (tiles_map : StringMap V)
    (hsize : tiles_map.length ≤ UNSIGNED_MOD) :
    (number_tiles tiles_map).tiles = tiles_map.map Prod.snd ∧
      ∀ key, map_find (number_tiles tiles_map).tiles_id key =
        if key ∈ tiles_map.map Prod.fst then
          some ((tiles_map.map Prod.fst).indexOf key) else none := by
  have := number_tiles_invariant tiles_map [] { tiles_id := [], tiles := [], id := 0 }
    (by simpa using hsize) (by simp) (by simp) (by intro key; simp [map_find])
  simpa [number_tiles] using this

/-- A loop that appends some elements is a `filterMap`. -/
theorem foldl_append_filterMap {α β : Type} (f : α → Option β) (step : List β → α → List β)
    (hstep : ∀ acc x, step acc x = match f x with
      | some y => acc ++ [y]
      | none => acc) :
    ∀ (l : List α) (acc : List β), l.foldl step acc = acc ++ l.filterMap f := by
  intro l
  induction l with
  | nil => intro acc; simp
  | cons x rest ih =>
    intro acc
    rw [List.foldl_cons, ih, hstep]
    cases hx : f x with
    | none => simp [List.filterMap_cons, hx]
    | some y => simp [List.filterMap_cons, hx]


/-- The loop over the neighbors as a `filterMap`. -/
theorem neighbors_ids_eq_filterMap (tiles_id : StringMap Nat)
    (neighbors : List (String × Nat × String × Nat)) :
    neighbors_ids tiles_id neighbors = neighbors.filterMap (fun n =>
      match map_find tiles_id n.1, map_find tiles_id n.2.2.1 with
      | some i1, some i2 =>
        some (i1, int_to_unsigned (unsigned_to_int n.2.1), i2,
          int_to_unsigned (unsigned_to_int n.2.2.2))
      | _, _ => none) := by
  unfold neighbors_ids
  have h := foldl_append_filterMap (fun n : String × Nat × String × Nat =>
      match map_find tiles_id n.1, map_find tiles_id n.2.2.1 with
      | some i1, some i2 =>
        some (i1, int_to_unsigned (unsigned_to_int n.2.1), i2,
          int_to_unsigned (unsigned_to_int n.2.2.2))
      | _, _ => none) (neighbors_ids_step tiles_id)
    (by
      intro acc x
      simp only [neighbors_ids_step]
      rcases h1 : map_find tiles_id x.1 with _ | i1 <;>
        rcases h2 : map_find tiles_id x.2.2.1 with _ | i2 <;> simp)
    neighbors []
  rw [h, List.nil_append]

/-- C14: the list `neighbors_ids` built by `read_simpletiled_instance` is the
list of the parsed tuples whose two tile names are both in the loaded tile set,
in the original order, each name replaced by the position of its tile in the
vector `tiles` and the orientations unchanged; tuples naming a missing tile are
dropped, and every id in the list is below `tiles.size()`. -/
theorem neighbors_ids_spec {V : Type} (tiles_map : StringMap V)
    (neighbors : List (String × Nat × String × Nat))
    (hsize : tiles_map.length ≤ UNSIGNED_MOD)
    (horient : ∀ n ∈ neighbors, n.2.1 < UNSIGNED_MOD ∧ n.2.2.2 < UNSIGNED_MOD) :
    neighbors_ids (number_tiles tiles_map).tiles_id neighbors =
        spec_neighbors_ids (tiles_map.map Prod.fst) neighbors ∧
      (number_tiles tiles_map).tiles = tiles_map.map Prod.snd ∧
      ∀ e ∈ neighbors_ids (number_tiles tiles_map).tiles_id neighbors,
        e.1 < (number_tiles tiles_map).tiles.length ∧
          e.2.2.1 < (number_tiles tiles_map).tiles.length := by
  obtain ⟨htiles, hfind⟩ := number_tiles_spec tiles_map hsize
  have hmain : neighbors_ids (number_tiles tiles_map).tiles_id neighbors =
      spec_neighbors_ids (tiles_map.map Prod.fst) neighbors := by
    rw [neighbors_ids_eq_filterMap]
    unfold spec_neighbors_ids
    apply List.filterMap_congr
    intro n hn
    obtain ⟨ho1, ho2⟩ := horient n hn
    rw [hfind n.1, hfind n.2.2.1, int_to_unsigned_to_int _ ho1, int_to_unsigned_to_int _ ho2]
    by_cases h1 : n.1 ∈ tiles_map.map Prod.fst <;>
      by_cases h2 : n.2.2.1 ∈ tiles_map.map Prod.fst <;> simp [h1, h2]
  refine ⟨hmain, htiles, ?_⟩
  intro e he
  rw [hmain] at he
  unfold spec_neighbors_ids at he
  rw [List.mem_filterMap] at he
  obtain ⟨n, _, hn⟩ := he
  by_cases hc : n.1 ∈ tiles_map.map Prod.fst ∧ n.2.2.1 ∈ tiles_map.map Prod.fst
  · rw [if_pos hc] at hn
    cases hn
    have l1 := List.indexOf_lt_length.mpr hc.1
    have l2 := List.indexOf_lt_length.mpr hc.2
    rw [htiles]
    simp only [List.length_map] at l1 l2 ⊢
    exact ⟨l1, l2⟩
  · rw [if_neg hc] at hn
    exact Option.noConfusion hn

/-- Witness of C14: three tiles, four adjacencies, two of them naming a tile
that is not loaded. -/
theorem neighbors_ids_spec_witness :
    ([("a", 10), ("b", 20), ("c", 30)] : StringMap Nat).length ≤ UNSIGNED_MOD ∧
    (∀ n ∈ [("a", 0, "b", 1), ("z", 0, "a", 0), ("c", 3, "c", 2), ("b", 0, "y", 1)],
      n.2.1 < UNSIGNED_MOD ∧ n.2.2.2 < UNSIGNED_MOD) ∧
    neighbors_ids (number_tiles ([("a", 10), ("b", 20), ("c", 30)] : StringMap Nat)).tiles_id
        [("a", 0, "b", 1), ("z", 0, "a", 0), ("c", 3, "c", 2), ("b", 0, "y", 1)] =
      spec_neighbors_ids (([("a", 10), ("b", 20), ("c", 30)] : StringMap Nat).map Prod.fst)
        [("a", 0, "b", 1), ("z", 0, "a", 0), ("c", 3, "c", 2), ("b", 0, "y", 1)] ∧
    spec_neighbors_ids (([("a", 10), ("b", 20), ("c", 30)] : StringMap Nat).map Prod.fst)
        [("a", 0, "b", 1), ("z", 0, "a", 0), ("c", 3, "c", 2), ("b", 0, "y", 1)] =
      [(0, 0, 1, 1), (2, 3, 2, 2)] :=
  ⟨by decide, by decide,
    (neighbors_ids_spec ([("a", 10), ("b", 20), ("c", 30)] : StringMap Nat)
      [("a", 0, "b", 1), ("z", 0, "a", 0), ("c", 3, "c", 2), ("b", 0, "y", 1)]
      (by decide) (by decide)).1,
    by decide⟩

/-- C12 (evaluation at a failing input): the data document has the tiles `a`
and `b`, and the subset `S` resolves to the non-empty set holding `a` only.
`read_tiles` for the subset `S` returns both tiles, where the claim has `a`
only: the condition of the `continue` starts with `subset_names.empty()`, so
it is false for every tile as soon as the subset is not empty. -/
theorem read_tiles_with_subset :
    read_subset_names example_with_subsets "S" = .ok ["a"] ∧
      (read_tiles example_loader example_with_subsets "dir" "S" 1).map (List.map Prod.fst)
        = .ok ["a", "b"] ∧
      tile_skipped ["a"] "b" = false ∧
      ∀ (subset_names : List String) (name : String),
        tile_skipped subset_names name = subset_names.isEmpty := by
  refine ⟨by decide, by decide, by decide, ?_⟩
  intro subset_names name
  cases subset_names <;> simp [tile_skipped]

/-- C13 (evaluation at a failing input): the data document has the tiles `a`
and `b` and no `subsets` node.  `read_subset_names` returns the empty set, the
condition of the `continue` holds for every tile, and `read_tiles` returns an
empty map, where the claim has both tiles. -/
theorem read_tiles_without_subsets :
    read_subset_names example_without_subsets "tiles" = .ok [] ∧
      read_tiles example_loader example_without_subsets "dir" "tiles" 1 = .ok [] ∧
      tile_skipped [] "a" = true ∧ tile_skipped [] "b" = true := by
  refine ⟨by decide, by decide, by decide, by decide⟩

/-- The character of a decimal digit is a digit with that value. -/
theorem digitChar_spec (m : Nat) (hm : m < 10) :
    isdigit (Nat.digitChar m) = true ∧ (Nat.digitChar m).toNat - 48 = m := by
  interval_cases m <;> decide

/-- The value of a sequence of digits followed by one more digit. -/
theorem digits_value_append (pre : List Char) (c : Char) :
    digits_value (pre ++ [c]) = 10 * digits_value pre + (c.toNat - 48) := by
  simp [digits_value, List.foldl_append]

/-- The digits produced by `Nat.toDigitsCore` in base 10: a non-empty sequence
of digits, of value `n`, in front of the accumulator. -/
theorem toDigitsCore_spec :
    ∀ (fuel n : Nat) (ds : List Char), n < fuel →
      ∃ pre, Nat.toDigitsCore 10 fuel n ds = pre ++ ds ∧ pre ≠ [] ∧
        (∀ c ∈ pre, isdigit c = true) ∧ digits_value pre = n := by
  intro fuel
  induction fuel with
  | zero => intro n ds h; omega
  | succ fuel ih =>
    intro n ds hn
    obtain ⟨hd1, hd2⟩ := digitChar_spec (n % 10) (Nat.mod_lt _ (by decide))
    simp only [Nat.toDigitsCore]
    by_cases h0 : n / 10 = 0
    · rw [if_pos h0]
      refine ⟨[Nat.digitChar (n % 10)], rfl, by simp, ?_, ?_⟩
      · intro c hc
        rw [List.mem_singleton] at hc
        rw [hc]; exact hd1
      · simp only [digits_value, List.foldl_cons, List.foldl_nil]
        omega
    · rw [if_neg h0]
      obtain ⟨pre, hpre, _, hdig, hval⟩ := ih (n / 10) (Nat.digitChar (n % 10) :: ds) (by omega)
      refine ⟨pre ++ [Nat.digitChar (n % 10)], by rw [hpre]; simp, by simp, ?_, ?_⟩
      · intro c hc
        rcases List.mem_append.mp hc with h | h
        · exact hdig c h
        · rw [List.mem_singleton] at h
          rw [h]; exact hd1
      · rw [digits_value_append, hval]
        omega

/-- The decimal representation of `k` printed by `toString`: a non-empty
sequence of digits of value `k`. -/
theorem toString_digits (k : Nat) :
    (toString k).data ≠ [] ∧ (∀ c ∈ (toString k).data, isdigit c = true) ∧
      digits_value (toString k).data = k := by
  obtain ⟨pre, hpre, hne, hdig, hval⟩ := toDigitsCore_spec (k + 1) k [] (by omega)
  have hdata : (toString k).data = pre := by
    show (Nat.toDigits 10 k) = pre
    rw [Nat.toDigits, hpre, List.append_nil]
  rw [hdata]
  exact ⟨hne, hdig, hval⟩

/-- A digit is neither white space nor a sign nor the space. -/
theorem isdigit_not_other (c : Char) (hc : isdigit c = true) :
    isspace c = false ∧ c ≠ '-' ∧ c ≠ '+' ∧ c ≠ ' ' := by
  simp only [isdigit, Bool.and_eq_true, decide_eq_true_eq] at hc
  refine ⟨?_, ?_, ?_, ?_⟩
  · simp only [isspace, Bool.or_eq_false_iff, decide_eq_false_iff_not, Bool.and_eq_false_imp,
      decide_eq_true_eq]
    omega
  · rintro rfl; revert hc; decide
  · rintro rfl; revert hc; decide
  · rintro rfl; revert hc; decide

/-- `std::stoi` on a space followed by the decimal representation of `k`. -/
theorem stoi_space_digits (k : Nat) (hk : k < 2147483648) :
    stoi (String.mk (' ' :: (toString k).data)) = .ok (k : Int) := by
  obtain ⟨hne, hdig, hval⟩ := toString_digits k
  obtain ⟨c, tl, hct⟩ := List.exists_cons_of_ne_nil hne
  have hc : isdigit c = true := hdig c (by rw [hct]; simp)
  obtain ⟨h1, h2, h3, _⟩ := isdigit_not_other c hc
  have hdrop : (' ' :: (toString k).data).dropWhile isspace = (toString k).data := by
    rw [hct, List.dropWhile_cons_of_pos (by decide), List.dropWhile_cons_of_neg (by simp [h1])]
  have htake : (toString k).data.takeWhile isdigit = (toString k).data :=
    List.takeWhile_eq_self_iff.mpr hdig
  have hhead : (toString k).data.head? = some c := by rw [hct]; rfl
  simp only [stoi, hdrop, hhead, Option.some.injEq, h2, h3, or_self, if_false, htake,
    decide_False, Bool.false_eq_true]
  rw [if_neg hne, hval]
  rw [if_neg (by omega)]


/-- The part of a list in front of the first `a`. -/
theorem take_indexOf_eq_takeWhile (a : Char) (l : List Char) :
    l.take (l.indexOf a) = l.takeWhile (fun c => decide (c ≠ a)) := by
  induction l with
  | nil => rfl
  | cons x xs ih =>
    by_cases hx : x = a
    · subst hx
      simp [List.indexOf_cons_self]
    · rw [List.indexOf_cons_ne _ (fun h => hx h), List.take_succ_cons, ih,
        List.takeWhile_cons_of_pos (by simpa using hx)]

/-- A string without a space has no delimiter. -/
theorem find_space_none (n : String) (hn : ' ' ∉ n.data) : find_space n = none := by
  have h : n.data.indexOf ' ' = n.data.length := List.indexOf_eq_length.mpr hn
  simp [find_space, h]

/-- The delimiter of `n`, a space and more text, for `n` without a space. -/
theorem find_space_append (n : String) (rest : List Char) (hn : ' ' ∉ n.data) :
    find_space (String.mk (n.data ++ ' ' :: rest)) = some n.data.length := by
  have h : (n.data ++ ' ' :: rest).indexOf ' ' = n.data.length := by
    rw [List.indexOf_append_of_not_mem hn, List.indexOf_cons_self, Nat.add_zero]
  simp [find_space, h]

/-- A string without a space is a tile name with orientation 0. -/
theorem read_neighbor_side_name (n : String) (hn : ' ' ∉ n.data) :
    read_neighbor_side n = .ok (n, 0) := by
  simp [read_neighbor_side, find_space_none n hn, substr]

/-- A name, a space and the decimal representation of `k`. -/
theorem read_neighbor_side_name_number (n : String) (k : Nat) (hn : ' ' ∉ n.data)
    (hk : k < 2147483648) :
    read_neighbor_side (n ++ " " ++ toString k) = .ok (n, k) := by
  have hs : n ++ " " ++ toString k = String.mk (n.data ++ ' ' :: (toString k).data) := by
    apply String.ext
    simp [String.data_append]
  have hk2 : int_to_unsigned (k : Int) = k := by
    simp only [int_to_unsigned]
    omega
  rw [hs]
  simp only [read_neighbor_side, find_space_append n _ hn, substr]
  simp [stoi_space_digits k hk, hk2]

/-- The tile name is the text in front of the first space. -/
theorem read_neighbor_side_prefix (s tile : String) (o : Nat)
    (h : read_neighbor_side s = .ok (tile, o)) :
    tile.data = s.data.takeWhile (fun c => decide (c ≠ ' ')) := by
  unfold read_neighbor_side at h
  by_cases hf : s.data.indexOf ' ' < s.data.length
  · have hfind : find_space s = some (s.data.indexOf ' ') := by
      unfold find_space; rw [if_pos hf]
    have e1 : substr s 0 (some (s.data.indexOf ' ')) =
        .ok (String.mk (s.data.take (s.data.indexOf ' '))) := by
      unfold substr; rw [if_neg (by omega)]; rfl
    have e2 : substr s (s.data.indexOf ' ') none =
        .ok (String.mk (s.data.drop (s.data.indexOf ' '))) := by
      unfold substr; rw [if_neg (by omega)]
    rw [← take_indexOf_eq_takeWhile]
    simp only [hfind, e1, e2] at h
    rcases hst : stoi (String.mk (s.data.drop (s.data.indexOf ' '))) with e | v
    · rw [hst] at h; exact Except.noConfusion h
    · rw [hst] at h
      simp only [Except.ok.injEq, Prod.mk.injEq] at h
      rw [← h.1]
  · have hfind : find_space s = none := by
      unfold find_space; rw [if_neg hf]
    have e1 : substr s 0 none = .ok (String.mk s.data) := by
      unfold substr; rw [if_neg (by omega)]; rfl
    simp only [hfind, e1, Except.ok.injEq, Prod.mk.injEq] at h
    rw [← h.1]
    have hnot : ' ' ∉ s.data := by
      intro hmem
      exact hf (List.indexOf_lt_length.mpr hmem)
    symm
    apply List.takeWhile_eq_self_iff.mpr
    intro c hc
    have : c ≠ ' ' := by rintro rfl; exact hnot hc
    simpa using this


/-- The function `read_neighbors` on a document with one adjacency. -/
theorem read_neighbors_single (left right : String) (l r : String × Nat)
    (hl : read_neighbor_side left = .ok l) (hr : read_neighbor_side right = .ok r) :
    read_neighbors (example_neighbors left right) = .ok [(l.1, l.2, r.1, r.2)] := by
  have h1 : first_node (example_neighbors left right) "neighbors" =
      some (.mk "neighbors" [] [.mk "neighbor" [("left", left), ("right", right)] []]) := by
    simp [first_node, child_nodes, example_neighbors, XmlNode.children, XmlNode.name]
  have h2 : child_nodes
      (.mk "neighbors" [] [.mk "neighbor" [("left", left), ("right", right)] []]) "neighbor" =
      [.mk "neighbor" [("left", left), ("right", right)] []] := by
    simp [child_nodes, XmlNode.children, XmlNode.name]
  have h3 : get_attribute (.mk "neighbor" [("left", left), ("right", right)] []) "left"
      = .ok left := by
    simp [get_attribute, XmlNode.attributes, map_find]
  have h4 : get_attribute (.mk "neighbor" [("left", left), ("right", right)] []) "right"
      = .ok right := by
    have : ¬ ("left" = "right") := by decide
    simp [get_attribute, XmlNode.attributes, map_find, this]
  simp only [read_neighbors, h1, h2, List.foldlM_cons, List.foldlM_nil, h3, h4, hl, hr]
  rfl

/-- C17 (counterexample): the tile name `a` and the number 2147483648.  The
value `a 2147483648` of an attribute is not parsed as tile `a` with orientation
2147483648: `std::stoi` returns an `int` and throws `std::out_of_range`. -/
theorem read_neighbor_side_counterexample :
    ' ' ∉ "a".data ∧
      read_neighbor_side ("a" ++ " " ++ toString 2147483648) = .error Failure.out_of_range ∧
      read_neighbor_side ("a" ++ " " ++ toString 2147483648) ≠ .ok ("a", 2147483648) := by
  refine ⟨by decide, by decide, by decide⟩

/-- C17 (amended): for every tile name `n` without a space and every number `k`
that is a value of `int` (`k < 2 ^ 31`), the attribute value `n` is parsed as
tile `n` with orientation 0 and the value `n k` (the name, one space, `k` in
decimal) as tile `n` with orientation `k`; whenever an attribute value is
parsed, the tile name is the text in front of its first space. -/
theorem read_neighbors_orientation (n m : String) (k : Nat) (hn : ' ' ∉ n.data)
    (hm : ' ' ∉ m.data) (hk : k < 2147483648) :
    read_neighbor_side n = .ok (n, 0) ∧
      read_neighbor_side (n ++ " " ++ toString k) = .ok (n, k) ∧
      (∀ (s tile : String) (o : Nat), read_neighbor_side s = .ok (tile, o) →
        tile.data = s.data.takeWhile (fun c => decide (c ≠ ' '))) ∧
      read_neighbors (example_neighbors (n ++ " " ++ toString k) m) = .ok [(n, k, m, 0)] :=
  ⟨read_neighbor_side_name n hn, read_neighbor_side_name_number n k hn hk,
    read_neighbor_side_prefix,
    read_neighbors_single _ _ (n, k) (m, 0) (read_neighbor_side_name_number n k hn hk)
      (read_neighbor_side_name m hm)⟩

/-- Witness of C17 (amended): the names `road` and `grass`, orientation 3. -/
theorem read_neighbors_orientation_witness :
    ' ' ∉ "road".data ∧ ' ' ∉ "grass".data ∧ 3 < 2147483648 ∧
      read_neighbor_side ("road" ++ " " ++ toString 3) = .ok ("road", 3) ∧
      read_neighbors (example_neighbors ("road" ++ " " ++ toString 3) "grass")
        = .ok [("road", 3, "grass", 0)] :=
  ⟨by decide, by decide, by decide,
    (read_neighbors_orientation "road" "grass" 3 (by decide) (by decide) (by decide)).2.1,
    (read_neighbors_orientation "road" "grass" 3 (by decide) (by decide) (by decide)).2.2.2⟩

/-- Reading a rotated square through `m`. -/
theorem SquareMap.apply_after_rotate_eq (m : SquareMap) (n y x : Nat) (hy : y < n) :
    m.apply n x (n - 1 - y) = m.after_rotate.apply n y x := by
  rcases m with ⟨s, fy, fx⟩
  cases s <;> cases fy <;> cases fx <;>
    simp [SquareMap.apply, SquareMap.after_rotate] <;> omega

/-- Reading a reflected square through `m`. -/
theorem SquareMap.apply_after_reflect_eq (m : SquareMap) (n y x : Nat) (hx : x < n) :
    m.apply n y (n - 1 - x) = m.after_reflect.apply n y x := by
  rcases m with ⟨s, fy, fx⟩
  cases s <;> cases fy <;> cases fx <;>
    simp [SquareMap.apply, SquareMap.after_reflect] <;> omega

/-- The position read stays inside the square. -/
theorem SquareMap.apply_lt (m : SquareMap) (n y x : Nat) (hy : y < n) (hx : x < n) :
    (m.apply n y x).1 < n ∧ (m.apply n y x).2 < n := by
  rcases m with ⟨s, fy, fx⟩
  cases s <;> cases fy <;> cases fx <;> simp [SquareMap.apply] <;> omega

/-- Every way to read a square is the one of a sequence of `canonical_words`. -/
theorem SquareMap.after_canonical (m : SquareMap) :
    ∃ word ∈ Array2D.canonical_words, SquareMap.after word SquareMap.ident = m := by
  rcases m with ⟨s, fy, fx⟩
  cases s <;> cases fy <;> cases fx <;> decide

namespace Array2D

variable {T : Type}

/-- An array satisfying the invariant is itself read through the identity. -/
theorem image_ident (ndebug : Bool) (g : Array2D T) (hwf : WF g) :
    IsImage ndebug SquareMap.ident g g :=
  ⟨hwf, rfl, rfl, fun _ _ _ _ => rfl⟩

/-- Two arrays that are the same square read the same way are equal. -/
theorem image_unique {ndebug : Bool} {m : SquareMap} {g r s : Array2D T}
    (hr : IsImage ndebug m g r) (hs : IsImage ndebug m g s) : r = s := by
  obtain ⟨wr, hh, hw, hg⟩ := hr
  obtain ⟨ws, hh2, hw2, hg2⟩ := hs
  have hdata : r.data = s.data := by
    apply data_ext wr ws (by omega) (by omega)
    intro i j hi hj
    have k1 := hg i j (by omega) (by omega)
    have k2 := hg2 i j (by omega) (by omega)
    rw [← k2, get_eq ndebug wr hi hj, get_eq ndebug ws (by omega) (by omega)] at k1
    rw [show s.width = r.width by omega] at k1
    exact k1
  cases r; cases s; simp_all

/-- A call of `rotated()` on a square read through `m`. -/
theorem image_rotated [Inhabited T] {ndebug : Bool} {m : SquareMap} {g r : Array2D T}
    (hsq : g.height = g.width) (hr : IsImage ndebug m g r) :
    ∃ s, Array2D.rotated ndebug r = some s ∧ IsImage ndebug m.after_rotate g s := by
  obtain ⟨wr, hh, hw, hg⟩ := hr
  obtain ⟨s, hs, ws, sh, sw, sg⟩ := rotated_spec ndebug r wr
  refine ⟨s, hs, ws, by omega, by omega, ?_⟩
  intro y x hy hx
  rw [sg y x (by omega) (by omega), hg x (r.width - 1 - y) (by omega) (by omega),
    show r.width = g.height by omega,
    SquareMap.apply_after_rotate_eq m g.height y x hy]

/-- A call of `reflected()` on a square read through `m`. -/
theorem image_reflected [Inhabited T] {ndebug : Bool} {m : SquareMap} {g r : Array2D T}
    (hsq : g.height = g.width) (hr : IsImage ndebug m g r) :
    ∃ s, Array2D.reflected ndebug r = some s ∧ IsImage ndebug m.after_reflect g s := by
  obtain ⟨wr, hh, hw, hg⟩ := hr
  obtain ⟨s, hs, ws, sh, sw, sg⟩ := reflected_spec_square ndebug r wr (by omega)
  refine ⟨s, hs, ws, by omega, by omega, ?_⟩
  intro y x hy hx
  rw [sg y x (by omega) (by omega), hg y (r.width - 1 - x) (by omega) (by omega),
    show r.width = g.height by omega,
    SquareMap.apply_after_reflect_eq m g.height y x (by omega)]

/-- A sequence of calls on a square read through `m`. -/
theorem image_apply_transforms [Inhabited T] {ndebug : Bool} {g : Array2D T}
    (hsq : g.height = g.width) :
    ∀ (word : List Transform) (m : SquareMap) (r : Array2D T), IsImage ndebug m g r →
      ∃ s, Array2D.apply_transforms ndebug word r = some s ∧
        IsImage ndebug (SquareMap.after word m) g s := by
  intro word
  induction word with
  | nil => intro m r hr; exact ⟨r, rfl, hr⟩
  | cons t rest ih =>
    intro m r hr
    cases t with
    | rotate =>
      obtain ⟨s, hs, hi⟩ := image_rotated hsq hr
      obtain ⟨u, hu, hi2⟩ := ih m.after_rotate s hi
      exact ⟨u, by simp [Array2D.apply_transforms, hs, hu], hi2⟩
    | reflect =>
      obtain ⟨s, hs, hi⟩ := image_reflected hsq hr
      obtain ⟨u, hu, hi2⟩ := ih m.after_reflect s hi
      exact ⟨u, by simp [Array2D.apply_transforms, hs, hu], hi2⟩

/-- C20: for every square array `g` satisfying the invariant of the data
model, `g.rotated().reflected()` and `g.reflected().rotated().rotated().rotated()`
both return and are equal under `operator==`; and every sequence of calls of
`rotated()` and `reflected()` on `g` returns one of the at most eight arrays of
`variants`. -/
theorem dihedral_relation [Inhabited T] [DecidableEq T] (ndebug : Bool) (g : Array2D T)
    (hwf : WF g) (hsq : g.height = g.width) :
    (((rotated ndebug g).bind (reflected ndebug)).bind (fun l =>
      ((((reflected ndebug g).bind (rotated ndebug)).bind (rotated ndebug)).bind
        (rotated ndebug)).bind (fun r => op_eq l r))) = some true ∧
    (variants ndebug g).length ≤ 8 ∧
    ∀ word : List Transform, ∃ r, apply_transforms ndebug word g = some r ∧
      r ∈ variants ndebug g := by
  have hid := image_ident ndebug g hwf
  refine ⟨?_, ?_, ?_⟩
  · obtain ⟨l, hl, il⟩ := image_apply_transforms hsq
      [Transform.rotate, Transform.reflect] _ g hid
    obtain ⟨r, hr, ir⟩ := image_apply_transforms hsq
      [Transform.reflect, Transform.rotate, Transform.rotate, Transform.rotate] _ g hid
    have hcode : SquareMap.after [Transform.rotate, Transform.reflect] SquareMap.ident =
        SquareMap.after [Transform.reflect, Transform.rotate, Transform.rotate,
          Transform.rotate] SquareMap.ident := by decide
    rw [hcode] at il
    have hlr : l = r := image_unique il ir
    simp only [Array2D.apply_transforms, Option.bind_eq_bind] at hl hr
    have hl2 : ((rotated ndebug g).bind (reflected ndebug)) = some l := by
      rw [← hl]
      cases rotated ndebug g with
      | none => rfl
      | some a => cases h : reflected ndebug a <;> simp [h]
    have hr2 : ((((reflected ndebug g).bind (rotated ndebug)).bind (rotated ndebug)).bind
        (rotated ndebug)) = some r := by
      rw [← hr]
      simp [Option.bind_assoc]
    rw [hl2, Option.some_bind, hr2, Option.some_bind, op_eq_spec il.1 ir.1, hlr]
    simp
  · unfold variants
    exact (List.length_filterMap_le _ _).trans (by decide)
  · intro word
    obtain ⟨r, hr, ir⟩ := image_apply_transforms hsq word _ g hid
    obtain ⟨cw, hcw, hcode⟩ := SquareMap.after_canonical (SquareMap.after word SquareMap.ident)
    obtain ⟨s, hs, is⟩ := image_apply_transforms hsq cw _ g hid
    rw [hcode] at is
    have hrs : s = r := image_unique is ir
    refine ⟨r, hr, ?_⟩
    unfold variants
    rw [List.mem_filterMap]
    exact ⟨cw, hcw, by rw [hs, hrs]⟩

/-- Witness of C20 on the 2 x 2 example, assertions compiled in. -/
theorem dihedral_relation_witness :
    WF example_2x2 ∧ example_2x2.height = example_2x2.width ∧
      (((rotated false example_2x2).bind (reflected false)).bind (fun l =>
        ((((reflected false example_2x2).bind (rotated false)).bind (rotated false)).bind
          (rotated false)).bind (fun r => op_eq l r))) = some true ∧
      (variants false example_2x2).length ≤ 8 :=
  ⟨by decide, by decide, (dihedral_relation false example_2x2 (by decide) (by decide)).1,
    (dihedral_relation false example_2x2 (by decide) (by decide)).2.1⟩

end Array2D

namespace Array2D

variable {T : Type}

/-- Two loops whose bodies agree on the elements visited give the same result. -/
theorem foldlM_option_congr {α σ : Type} (f g : σ → α → Option σ) :
    ∀ (l : List α) (init : σ), (∀ x ∈ l, ∀ s, f s x = g s x) →
      l.foldlM f init = l.foldlM g init := by
  intro l
  induction l with
  | nil => intro init _; rfl
  | cons x rest ih =>
    intro init h
    simp only [List.foldlM_cons]
    rw [h x (List.mem_cons_self _ _) init]
    cases g init x with
    | none => rfl
    | some s => exact ih s (fun z hz => h z (List.mem_cons_of_mem _ hz))

/-- The wrapped coordinate `(y + k) % height` is the same after one more turn
around the array, as long as `y + height + k` is a value of `size_t`. -/
theorem size_rem_add_period (y h k : Nat) (hno : y + h + k < SIZE_T_MOD) :
    size_rem (size_add (y + h) k) h = size_rem (size_add y k) h := by
  have e1 : size_add (y + h) k = y + k + h := by
    unfold size_add
    rw [Nat.mod_eq_of_lt hno]
    omega
  have e2 : size_add y k = y + k := by
    unfold size_add
    exact Nat.mod_eq_of_lt (by omega)
  rw [e1, e2]
  unfold size_rem
  by_cases h0 : h = 0
  · simp [h0]
  · simp [h0]

/-- The call `get_sub_array(y + height, x, sub_width, sub_height)` does what the
call `get_sub_array(y, x, sub_width, sub_height)` does: both fail, or both
return the same array. -/
theorem get_sub_array_period_y [Inhabited T] (ndebug : Bool) (a : Array2D T)
    (y x sub_width sub_height : Nat) (hno : y + a.height + sub_height < SIZE_T_MOD) :
    get_sub_array ndebug a (y + a.height) x sub_width sub_height =
      get_sub_array ndebug a y x sub_width sub_height := by
  unfold get_sub_array
  apply foldlM_option_congr
  intro ki hki s
  rw [List.mem_range] at hki
  rw [size_rem_add_period y a.height ki (by omega)]

/-- The call `get_sub_array(y, x + width, sub_width, sub_height)` does what the
call `get_sub_array(y, x, sub_width, sub_height)` does: both fail, or both
return the same array. -/
theorem get_sub_array_period_x [Inhabited T] (ndebug : Bool) (a : Array2D T)
    (y x sub_width sub_height : Nat) (hno : x + a.width + sub_width < SIZE_T_MOD) :
    get_sub_array ndebug a y (x + a.width) sub_width sub_height =
      get_sub_array ndebug a y x sub_width sub_height := by
  unfold get_sub_array
  apply foldlM_option_congr
  intro ki _ s
  apply foldlM_option_congr
  intro kj hkj s2
  rw [List.mem_range] at hkj
  rw [size_rem_add_period x a.width kj (by omega)]

/-- For square windows the toric sub-array is periodic in its start position:
the calls return and their results are equal under `operator==`. -/
theorem get_sub_array_periodic_square [Inhabited T] [DecidableEq T] (ndebug : Bool)
    (g : Array2D T) (hwf : WF g) (hh : 0 < g.height) (hw : 0 < g.width) (y x n : Nat)
    (hn : n * n < SIZE_T_MOD) (hy : y + g.height + n < SIZE_T_MOD)
    (hx : x + g.width + n < SIZE_T_MOD) :
    ((get_sub_array ndebug g (y + g.height) x n n).bind (fun l =>
      (get_sub_array ndebug g y x n n).bind (fun r => op_eq l r))) = some true ∧
    ((get_sub_array ndebug g y (x + g.width) n n).bind (fun l =>
      (get_sub_array ndebug g y x n n).bind (fun r => op_eq l r))) = some true := by
  obtain ⟨r, hr, wr, _, _, _⟩ := get_sub_array_spec_square ndebug g hwf hh hw y x n hn
  rw [get_sub_array_period_y ndebug g y x n n hy, get_sub_array_period_x ndebug g y x n n hx, hr]
  simp [op_eq_spec wr wr]

/-- C21 (evaluation at a failing input): on the 2 x 3 example, with
`y = 0`, `x = 0`, `sub_width = 2` and `sub_height = 1`, neither
`get_sub_array(y + height, x, 2, 1)` nor `get_sub_array(y, x, 2, 1)` returns
when assertions are compiled in: the result is built with
`Array2D<T>(sub_width, sub_height)`, of width 1, and `sub_array_2d.get(0, 1)`
fails its assertion.  No comparison `==` of the two results takes place, for
the shift of `x` by the width either.  With `NDEBUG`, `sub_width = 1` and
`sub_height = 2` the calls write `data[2]` in a vector of two elements; with
`NDEBUG`, `sub_width = 2` and `sub_height = 1` both calls return the same
array of height 2 and width 1. -/
theorem sub_array_periodic_at_2x3 :
    get_sub_array false example_2x3 (0 + example_2x3.height) 0 2 1 = none ∧
      get_sub_array false example_2x3 0 (0 + example_2x3.width) 2 1 = none ∧
      get_sub_array false example_2x3 0 0 2 1 = none ∧
      ((get_sub_array false example_2x3 (0 + example_2x3.height) 0 2 1).bind (fun l =>
        (get_sub_array false example_2x3 0 0 2 1).bind (fun r => op_eq l r))) = none ∧
      ((get_sub_array false example_2x3 0 (0 + example_2x3.width) 2 1).bind (fun l =>
        (get_sub_array false example_2x3 0 0 2 1).bind (fun r => op_eq l r))) = none ∧
      ((get_sub_array true example_2x3 (0 + example_2x3.height) 0 1 2).bind (fun l =>
        (get_sub_array true example_2x3 0 0 1 2).bind (fun r => op_eq l r))) = none ∧
      get_sub_array true example_2x3 (0 + example_2x3.height) 0 2 1
        = some { height := 2, width := 1, data := [1, 2] } ∧
      get_sub_array true example_2x3 0 0 2 1
        = some { height := 2, width := 1, data := [1, 2] } := by
  refine ⟨by decide, by decide, by decide, by decide, by decide, by decide, by decide,
    by decide⟩

end Array2D

end FastWFC
